import Mathlib

/-!
# filestore-cleanup: the orphan sweep of `main.go`

A shallow embedding of `doRequest`, `ErrorStruct.Error` and `CleanFilestore`
(`src/main.go`), followed by theorems about them.

Conventions of the embedding.

* Go strings are modelled by `String` (sequences of Unicode characters); the
  two `strings` functions the program uses are defined on the character list.
* The node behind the HTTP API is a deterministic state machine
  `Node σ = σ → Request → HttpResult × σ` over an arbitrary state type `σ`.
  A `World` carries the state of the node together with two records of what
  the program did: its `doRequest` invocations and its log lines.
* The body of the verify response is an input of the sweep, fixed when the
  stream is opened; the POST that opens it is not a `doRequest` invocation
  and is not recorded among the calls.
* `encoding/json` is not part of the repository. `json.Unmarshal` into an
  `ErrorStruct` is a parameter `unmarshal : String → Option ErrorStruct`
  (`none` when it returns an error); the `json.Decoder` wrapped around the
  verify response is a parameter of type `StreamDecoder δ`. Two decoders are
  given: `recordStream`, which hands out a given list of records, and
  `jsonStream`, a model of the library decoder over the bytes of the body
  (`Json` namespace), used where a theorem evaluates the program on bytes.
* Both loops of `CleanFilestore` may run forever, so each takes a bound on
  its number of iterations; a run that would need more iterations ends with
  status `exhausted`. A run that ends otherwise is the same under every
  larger bound (`removeLoop_more_fuel`, `sweepLoop_more_fuel`).
* An index out of range is a Go runtime panic, which ends the process: the
  run ends with status `indexOutOfRange`.
-/

namespace FilestoreCleanup

/-! ## `strings.HasPrefix` and `strings.Split` -/

/-- Character-list form of `strings.HasPrefix`. -/
def hasPrefixChars : List Char → List Char → Bool
  | _, [] => true
  | [], _ :: _ => false
  | c :: cs, p :: ps => c == p && hasPrefixChars cs ps

/-- Go `strings.HasPrefix(s, p)`. -/
def HasPrefix (s p : String) : Bool := hasPrefixChars s.data p.data

/-- Character-list form of `strings.Split` for a one-character separator:
the pieces between consecutive occurrences of `sep`, empty pieces included. -/
def splitChars (sep : Char) : List Char → List (List Char)
  | [] => [[]]
  | c :: cs =>
    if c = sep then [] :: splitChars sep cs
    else
      match splitChars sep cs with
      | [] => [[c]]
      | t :: ts => (c :: t) :: ts

/-- Go `strings.Split(s, " ")`, the only use of `strings.Split` in the program. -/
def Split (s : String) : List String := (splitChars ' ' s.data).map String.mk

/-! ## Data model -/

/-- Go `ErrorStruct` (main.go:137). The field `Type` is spelled `Type_`. -/
structure ErrorStruct where
  Message : String
  Error2 : String
  Code : Int
  Type_ : String
deriving DecidableEq, Repr

/-- Go `(*ErrorStruct).Error` (main.go:145). -/
def ErrorStruct.Error (es : ErrorStruct) : String :=
  if es.Message ≠ "" then es.Message
  else if es.Error2 ≠ "" then es.Error2
  else ""

/-- The non-nil values of Go type `error` that `doRequest` can return: an
error of the HTTP layer (lines 45, 49, 54), known by its text only, or the
decoded `*ErrorStruct` (line 60). -/
inductive GoError where
  | transport (text : String)
  | api (es : ErrorStruct)
deriving DecidableEq, Repr

/-- Go `err.Error()`. -/
def GoError.Error : GoError → String
  | .transport text => text
  | .api es => es.Error

/-- Go `FileStoreKey` (main.go:71). -/
structure FileStoreKey where
  Slash : String
deriving DecidableEq, Repr

/-- Go `FileStoreEntry` (main.go:76); `FileStoreStatus` is an `int`. -/
structure FileStoreEntry where
  Status : Int
  Key : FileStoreKey
deriving DecidableEq, Repr

/-- Go constant `NoFile` (main.go:69). -/
def NoFile : Int := 11

/-- Go constant `API` (main.go:17). -/
def API : String := "/api/v0/"

/-- The process-wide variables read during a sweep (main.go:20-28).
`TimeoutTime` is a `time.Duration`, a signed number of nanoseconds. -/
structure Config where
  EndPoint : String
  TimeoutTime : Int
  Verbose : Bool
deriving DecidableEq, Repr

/-! ## The HTTP API as a state machine -/

/-- What `doRequest` hands to the HTTP client: a POST to `url`, cancelled
after `deadline` nanoseconds when there is one. -/
structure Request where
  url : String
  deadline : Option Int
deriving DecidableEq, Repr

/-- Outcome of lines 43-55 of `doRequest`: an error of the HTTP layer
(building the request, sending it, reading the body), or the body read. -/
inductive HttpResult where
  | failure (text : String)
  | body (bytes : String)
deriving DecidableEq, Repr

/-- A node: its answer to a request and its next state. -/
abbrev Node (σ : Type) := σ → Request → HttpResult × σ

/-- One completed invocation of `doRequest`: the request and both results. -/
structure Call where
  req : Request
  body : String
  err : Option GoError
deriving DecidableEq, Repr

/-- Everything a sweep touches: the node, the `doRequest` invocations made so
far (oldest first) and the lines written with `log.Println` (oldest first,
without the timestamp prefix). -/
structure World (σ : Type) where
  node : σ
  calls : List Call
  logs : List String

/-- A world in which nothing has happened yet. -/
def World.init {σ : Type} (s : σ) : World σ := ⟨s, [], []⟩

/-- The requests issued so far, in order. -/
def World.requests {σ : Type} (w : World σ) : List Request := w.calls.map Call.req

/-- Go `log.Println(...)`: one more line. -/
def World.log {σ : Type} (w : World σ) (line : String) : World σ :=
  { w with logs := w.logs ++ [line] }

/-- The context deadline chosen at main.go:37: none unless `timeout > 0`. -/
def deadlineOf (timeout : Int) : Option Int :=
  if timeout > 0 then some timeout else none

/-- The request `doRequest(timeout, cmd)` sends (main.go:37-43). -/
def requestFor (cfg : Config) (timeout : Int) (cmd : String) : Request :=
  ⟨cfg.EndPoint ++ API ++ cmd, deadlineOf timeout⟩

section Program

variable {σ : Type}

/-- Go `doRequest` (main.go:34). Returns the pair `(string, error)` and the
world after the call. -/
def doRequest (unmarshal : String → Option ErrorStruct) (node : Node σ) (cfg : Config)
    (timeout : Int) (cmd : String) (w : World σ) : (String × Option GoError) × World σ :=
  let req := requestFor cfg timeout cmd
  match node w.node req with
  | (.failure text, s) =>
    (("", some (.transport text)),
      { w with node := s, calls := w.calls ++ [⟨req, "", some (.transport text)⟩] })
  | (.body body, s) =>
    match unmarshal body with
    | some errStruct =>
      if errStruct.Error ≠ "" then
        ((body, some (.api errStruct)),
          { w with node := s, calls := w.calls ++ [⟨req, body, some (.api errStruct)⟩] })
      else
        ((body, none), { w with node := s, calls := w.calls ++ [⟨req, body, none⟩] })
    | none =>
      ((body, none), { w with node := s, calls := w.calls ++ [⟨req, body, none⟩] })

/-- How a loop of the sweep stopped: it ran to its end, the Go runtime
panicked on an out-of-range index (which ends the process), or the bound on
the number of iterations was reached. -/
inductive Status where
  | finished
  | indexOutOfRange (index length : Nat)
  | exhausted
deriving DecidableEq, Repr

/-- The expression `strings.Split(err.Error(), " ")[2]` of main.go:121:
`none` when the index is out of range. -/
def pinIdentifier (text : String) : Option String := (Split text)[2]?

/-- Result of the `for` statement of main.go:120: how it stopped, the last
value of its loop variable `err`, and the world. -/
structure LoopResult (σ : Type) where
  status : Status
  err : Option GoError
  world : World σ

/-- The body of the `for` statement after `cid` has been computed
(main.go:122-126): the pin is reported, `pin/rm` is called without timeout,
and its error, if any, is logged and dropped. -/
def unpin (unmarshal : String → Option ErrorStruct) (node : Node σ) (cfg : Config)
    (cid : String) (w : World σ) : World σ :=
  let w1 := w.log ("Effected block is pinned, removing pin: " ++ cid)
  let (r, w2) := doRequest unmarshal node cfg 0 ("pin/rm?arg=" ++ cid) w1
  match r.2 with
  | some err => w2.log ("Error removing pin: " ++ err.Error)
  | none => w2

/-- The `for` statement of main.go:120 from its condition on: `err` is the
loop variable, `fuel` bounds the number of iterations of the body. Each
iteration computes `cid` (line 121), runs the rest of the body and then the
post statement, the next `block/rm` call. -/
def removeLoop (unmarshal : String → Option ErrorStruct) (node : Node σ) (cfg : Config)
    (key : String) : Nat → Option GoError → World σ → LoopResult σ
  | _, none, w => ⟨.finished, none, w⟩
  | fuel, some err, w =>
    if HasPrefix err.Error "pinned" then
      match fuel with
      | 0 => ⟨.exhausted, some err, w⟩
      | fuel + 1 =>
        match pinIdentifier err.Error with
        | none => ⟨.indexOutOfRange 2 (Split err.Error).length, some err, w⟩
        | some cid =>
          let w1 := unpin unmarshal node cfg cid w
          let (r, w2) :=
            doRequest unmarshal node cfg cfg.TimeoutTime ("block/rm?arg=" ++ key) w1
          removeLoop unmarshal node cfg key fuel r.2 w2
    else ⟨.finished, some err, w⟩

/-- The whole `for` statement of main.go:120-127 for one key: the init
statement, then the loop. -/
def removeBlock (unmarshal : String → Option ErrorStruct) (node : Node σ) (cfg : Config)
    (fuel : Nat) (key : String) (w : World σ) : LoopResult σ :=
  let (r, w1) := doRequest unmarshal node cfg cfg.TimeoutTime ("block/rm?arg=" ++ key) w
  removeLoop unmarshal node cfg key fuel r.2 w1

/-- The two methods of `json.Decoder` the sweep uses, over a decoder state
`δ`. `Decode` returns the text of its error, or the entry it filled. -/
structure StreamDecoder (δ : Type) where
  More : δ → Bool × δ
  Decode : δ → Except String FileStoreEntry × δ

/-- Result of a sweep. -/
structure Run (σ : Type) where
  status : Status
  world : World σ

/-- The loop of main.go:111-133. `outer` bounds the iterations of this loop,
`inner` those of the `for` statement of line 120, for each record.

The `err` tested at line 129 is the one declared at line 113 (the result of
`dec.Decode`): the variable of the same name declared by the `for` statement
of line 120 is out of scope after that statement. -/
def sweepLoop {δ : Type} (dec : StreamDecoder δ) (unmarshal : String → Option ErrorStruct)
    (node : Node σ) (cfg : Config) (inner : Nat) : Nat → δ → World σ → Run σ
  | 0, _, w => ⟨.exhausted, w⟩
  | outer + 1, d, w =>
    match dec.More d with
    | (false, _) => ⟨.finished, w⟩
    | (true, d1) =>
      match dec.Decode d1 with
      | (.error text, d2) =>
        sweepLoop dec unmarshal node cfg inner outer d2
          (w.log ("Error decoding fsEntry stream: " ++ text))
      | (.ok fsEntry, d2) =>
        let err : Option String := none
        if fsEntry.Status = NoFile then
          let w1 := w.log ("Removing reference from filestore: " ++ fsEntry.Key.Slash)
          let r := removeBlock unmarshal node cfg inner fsEntry.Key.Slash w1
          match r.status with
          | .finished =>
            let w2 :=
              match err with
              | some text => r.world.log ("Error removing bad block: " ++ text)
              | none => r.world
            sweepLoop dec unmarshal node cfg inner outer d2 w2
          | st => ⟨st, r.world⟩
        else sweepLoop dec unmarshal node cfg inner outer d2 w

/-- Go `CleanFilestore` (main.go:83). `stream` is the outcome of lines 89-101:
the text of the error when the verify request could not be built or sent,
else the decoder state over the response body. -/
def CleanFilestore {δ : Type} (dec : StreamDecoder δ) (unmarshal : String → Option ErrorStruct)
    (node : Node σ) (cfg : Config) (outer inner : Nat) (stream : Except String δ)
    (w : World σ) : Run σ :=
  let w0 :=
    if cfg.Verbose then
      w.log "Removing blocks that point to a file that doesn\x27t exist from filestore..."
    else w
  match stream with
  | .error text => ⟨.finished, w0.log text⟩
  | .ok d => sweepLoop dec unmarshal node cfg inner outer d w0

end Program

/-- A verify stream that delivers the given records one by one and then ends:
`More` reports whether a record is left, `Decode` hands out the next one. -/
def recordStream : StreamDecoder (List FileStoreEntry) where
  More := fun rs => (!rs.isEmpty, rs)
  Decode := fun rs =>
    match rs with
    | [] => (.error "EOF", [])
    | r :: rest => (.ok r, rest)

/-! ## A model of `encoding/json`

The part of the Go standard library the program relies on, written from its
documented behaviour: the JSON grammar accepted by its scanner, the way a
JSON value is stored into the two struct types of the program, and the
`More` and `Decode` methods of `json.Decoder`. Input is a list of characters
(the body is taken to be valid UTF-8) and `int` is taken to be 64 bits wide.
-/

namespace Json

/-- A parsed JSON value. Numbers keep their literal text, strings are unquoted. -/
inductive Value where
  | null
  | bool (b : Bool)
  | number (literal : String)
  | string (s : String)
  | array (items : List Value)
  | object (members : List (String × Value))

/-- Result of reading one item from the front of the input. -/
inductive Parsed (α : Type) where
  | ok (v : α) (rest : List Char)
  | invalid (c : Char)
  | eof
  | tooDeep

/-- The four JSON white space characters. -/
def isSpace (c : Char) : Bool := c == ' ' || c == '\t' || c == '\r' || c == '\n'

/-- Drop leading white space. -/
def skipSpace : List Char → List Char
  | [] => []
  | c :: cs => if isSpace c then skipSpace cs else c :: cs

/-- Decimal digit test. -/
def isDigit (c : Char) : Bool := '0' ≤ c && c ≤ '9'

/-- Value of a hexadecimal digit. -/
def hexValue (c : Char) : Option Nat :=
  if '0' ≤ c && c ≤ '9' then some (c.toNat - 48)
  else if 'a' ≤ c && c ≤ 'f' then some (c.toNat - 87)
  else if 'A' ≤ c && c ≤ 'F' then some (c.toNat - 55)
  else none

/-- Four hexadecimal digits at the front of the input, as a number. -/
def hex4 : List Char → Parsed Nat
  | a :: b :: c :: d :: rest =>
    match hexValue a, hexValue b, hexValue c, hexValue d with
    | some x, some y, some z, some t => .ok (((x * 16 + y) * 16 + z) * 16 + t) rest
    | none, _, _, _ => .invalid a
    | _, none, _, _ => .invalid b
    | _, _, none, _ => .invalid c
    | _, _, _, none => .invalid d
  | [a, b, c] =>
    match hexValue a, hexValue b, hexValue c with
    | some _, some _, some _ => .eof
    | none, _, _ => .invalid a
    | _, none, _ => .invalid b
    | _, _, none => .invalid c
  | [a, b] =>
    match hexValue a, hexValue b with
    | some _, some _ => .eof
    | none, _ => .invalid a
    | _, none => .invalid b
  | [a] => if (hexValue a).isSome then .eof else .invalid a
  | [] => .eof

/-- The low half of a surrogate pair written as a second `\u` escape at the
front of the input, with the input after it. -/
def lowSurrogate : List Char → Option (Nat × List Char)
  | '\\' :: 'u' :: rest =>
    match hex4 rest with
    | .ok m rest1 => if 0xDC00 ≤ m ∧ m < 0xE000 then some (m, rest1) else none
    | _ => none
  | _ => none

/-- A string literal after its opening quote: the unquoted text. `fuel`
bounds the number of characters and escapes read; `acc` is the text so far,
reversed. -/
def parseString : Nat → List Char → List Char → Parsed String
  | 0, _, _ => .tooDeep
  | _ + 1, [], _ => .eof
  | fuel + 1, c :: cs, acc =>
    if c = '"' then .ok (String.mk acc.reverse) cs
    else if c = '\\' then
      match cs with
      | [] => .eof
      | e :: rest =>
        if e = '"' then parseString fuel rest ('"' :: acc)
        else if e = '\\' then parseString fuel rest ('\\' :: acc)
        else if e = '/' then parseString fuel rest ('/' :: acc)
        else if e = 'b' then parseString fuel rest (Char.ofNat 8 :: acc)
        else if e = 'f' then parseString fuel rest (Char.ofNat 12 :: acc)
        else if e = 'n' then parseString fuel rest ('\n' :: acc)
        else if e = 'r' then parseString fuel rest ('\r' :: acc)
        else if e = 't' then parseString fuel rest ('\t' :: acc)
        else if e = 'u' then
          match hex4 rest with
          | .ok n rest1 =>
            if 0xD800 ≤ n ∧ n < 0xDC00 then
              match lowSurrogate rest1 with
              | some (m, rest2) =>
                parseString fuel rest2
                  (Char.ofNat (0x10000 + (n - 0xD800) * 0x400 + (m - 0xDC00)) :: acc)
              | none => parseString fuel rest1 (Char.ofNat 0xFFFD :: acc)
            else if 0xDC00 ≤ n ∧ n < 0xE000 then
              parseString fuel rest1 (Char.ofNat 0xFFFD :: acc)
            else parseString fuel rest1 (Char.ofNat n :: acc)
          | .invalid x => .invalid x
          | .eof => .eof
          | .tooDeep => .tooDeep
        else .invalid e
    else if c.toNat < 0x20 then .invalid c
    else parseString fuel cs (c :: acc)

/-- The longest run of digits at the front of the input, and what follows. -/
def takeDigits : List Char → List Char × List Char
  | [] => ([], [])
  | c :: cs =>
    if isDigit c then ((takeDigits cs).1.cons c, (takeDigits cs).2) else ([], c :: cs)

/-- At least one digit, then as many as follow. -/
def someDigits (cs : List Char) : Parsed (List Char) :=
  match takeDigits cs with
  | ([], []) => .eof
  | ([], c :: _) => .invalid c
  | (d :: ds, rest) => .ok (d :: ds) rest

/-- The exponent part of a number, if there is one. -/
def parseExponent (cs : List Char) : Parsed (List Char) :=
  match cs with
  | e :: rest =>
    if e = 'e' ∨ e = 'E' then
      match rest with
      | s :: rest1 =>
        if s = '+' ∨ s = '-' then
          match someDigits rest1 with
          | .ok ds r => .ok (e :: s :: ds) r
          | other => other
        else
          match someDigits rest with
          | .ok ds r => .ok (e :: ds) r
          | other => other
      | [] => .eof
    else .ok [] cs
  | [] => .ok [] []

/-- The fraction part of a number, if there is one. -/
def parseFraction (cs : List Char) : Parsed (List Char) :=
  match cs with
  | '.' :: rest =>
    match someDigits rest with
    | .ok ds r => .ok ('.' :: ds) r
    | other => other
  | _ => .ok [] cs

/-- The integer part of a number: a single `0`, or a non-zero digit and the
digits after it. -/
def parseIntegerPart (cs : List Char) : Parsed (List Char) :=
  match cs with
  | [] => .eof
  | c :: rest =>
    if c = '0' then .ok ['0'] rest
    else if isDigit c then .ok (c :: (takeDigits rest).1) (takeDigits rest).2
    else .invalid c

/-- A number literal at the front of the input: its text. -/
def parseNumber (cs : List Char) : Parsed String :=
  let (sign, cs1) :=
    match cs with
    | '-' :: rest => (['-'], rest)
    | _ => ([], cs)
  match parseIntegerPart cs1 with
  | .ok ip cs2 =>
    match parseFraction cs2 with
    | .ok fp cs3 =>
      match parseExponent cs3 with
      | .ok ep cs4 => .ok (String.mk (sign ++ ip ++ fp ++ ep)) cs4
      | .invalid c => .invalid c
      | .eof => .eof
      | .tooDeep => .tooDeep
    | .invalid c => .invalid c
    | .eof => .eof
    | .tooDeep => .tooDeep
  | .invalid c => .invalid c
  | .eof => .eof
  | .tooDeep => .tooDeep

/-- The rest of a literal name (`true`, `false`, `null`) after its first letter. -/
def expect : List Char → List Char → Parsed Unit
  | [], cs => .ok () cs
  | _ :: _, [] => .eof
  | w :: ws, c :: cs => if c = w then expect ws cs else .invalid c

mutual

/-- One JSON value at the front of the input, leading white space skipped. -/
def parseValue : Nat → List Char → Parsed Value
  | 0, _ => .tooDeep
  | fuel + 1, cs =>
    match skipSpace cs with
    | [] => .eof
    | c :: rest =>
      if c = '{' then
        match skipSpace rest with
        | [] => .eof
        | c1 :: rest1 =>
          if c1 = '}' then .ok (.object []) rest1
          else
            match parseMembers fuel (c1 :: rest1) with
            | .ok ms r => .ok (.object ms) r
            | .invalid x => .invalid x
            | .eof => .eof
            | .tooDeep => .tooDeep
      else if c = '[' then
        match skipSpace rest with
        | [] => .eof
        | c1 :: rest1 =>
          if c1 = ']' then .ok (.array []) rest1
          else
            match parseItems fuel (c1 :: rest1) with
            | .ok vs r => .ok (.array vs) r
            | .invalid x => .invalid x
            | .eof => .eof
            | .tooDeep => .tooDeep
      else if c = '"' then
        match parseString (rest.length + 1) rest [] with
        | .ok s r => .ok (.string s) r
        | .invalid x => .invalid x
        | .eof => .eof
        | .tooDeep => .tooDeep
      else if c = '-' ∨ isDigit c then
        match parseNumber (c :: rest) with
        | .ok lit r => .ok (.number lit) r
        | .invalid x => .invalid x
        | .eof => .eof
        | .tooDeep => .tooDeep
      else if c = 't' then
        match expect ['r', 'u', 'e'] rest with
        | .ok _ r => .ok (.bool true) r
        | .invalid x => .invalid x
        | .eof => .eof
        | .tooDeep => .tooDeep
      else if c = 'f' then
        match expect ['a', 'l', 's', 'e'] rest with
        | .ok _ r => .ok (.bool false) r
        | .invalid x => .invalid x
        | .eof => .eof
        | .tooDeep => .tooDeep
      else if c = 'n' then
        match expect ['u', 'l', 'l'] rest with
        | .ok _ r => .ok .null r
        | .invalid x => .invalid x
        | .eof => .eof
        | .tooDeep => .tooDeep
      else .invalid c

/-- The members of an object from the first key on, up to the closing brace. -/
def parseMembers : Nat → List Char → Parsed (List (String × Value))
  | 0, _ => .tooDeep
  | fuel + 1, cs =>
    match skipSpace cs with
    | [] => .eof
    | q :: rest =>
      if q = '"' then
        match parseString (rest.length + 1) rest [] with
        | .ok key rest1 =>
          match skipSpace rest1 with
          | [] => .eof
          | colon :: rest2 =>
            if colon = ':' then
              match parseValue fuel rest2 with
              | .ok v rest3 =>
                match skipSpace rest3 with
                | [] => .eof
                | c :: rest4 =>
                  if c = ',' then
                    match parseMembers fuel rest4 with
                    | .ok ms r => .ok ((key, v) :: ms) r
                    | other => other
                  else if c = '}' then .ok [(key, v)] rest4
                  else .invalid c
              | .invalid x => .invalid x
              | .eof => .eof
              | .tooDeep => .tooDeep
            else .invalid colon
        | .invalid x => .invalid x
        | .eof => .eof
        | .tooDeep => .tooDeep
      else .invalid q

/-- The items of an array from the first one on, up to the closing bracket. -/
def parseItems : Nat → List Char → Parsed (List Value)
  | 0, _ => .tooDeep
  | fuel + 1, cs =>
    match parseValue fuel cs with
    | .ok v rest =>
      match skipSpace rest with
      | [] => .eof
      | c :: rest1 =>
        if c = ',' then
          match parseItems fuel rest1 with
          | .ok vs r => .ok (v :: vs) r
          | other => other
        else if c = ']' then .ok [v] rest1
        else .invalid c
    | .invalid x => .invalid x
    | .eof => .eof
    | .tooDeep => .tooDeep

end

/-- One JSON value at the front of the input. The fuel is enough for any
nesting the input can hold, so `tooDeep` does not arise here; the library
rejects nesting deeper than 10000 levels, which is not modelled. -/
def readValue (cs : List Char) : Parsed Value := parseValue (2 * cs.length + 2) cs

/-! ### Storing a JSON value into a struct -/

/-- Case folding of field names: ASCII letters fold to lower case, and so do
the two other characters whose Unicode simple folding is an ASCII letter
(U+017F, the long s, and U+212A, the Kelvin sign). -/
def foldChar (c : Char) : Char :=
  if 'A' ≤ c ∧ c ≤ 'Z' then Char.ofNat (c.toNat + 32)
  else if c = Char.ofNat 0x17F then 's'
  else if c = Char.ofNat 0x212A then 'k'
  else c

/-- Whether an object key selects the struct field with JSON name `name`:
an exact match, or else a match up to case folding. -/
def fieldMatches (name key : String) : Bool :=
  name.data.map foldChar == key.data.map foldChar

/-- Decimal value of a run of digits. -/
def digitsValue (ds : List Char) : Nat := ds.foldl (fun a c => 10 * a + (c.toNat - 48)) 0

/-- Go `strconv.ParseInt(lit, 10, 64)` on the text of a JSON number: `none`
when the literal has a fraction or an exponent, or is out of range. -/
def parseInt64 (lit : String) : Option Int :=
  let (neg, ds) :=
    match lit.data with
    | '-' :: rest => (true, rest)
    | cs => (false, cs)
  if ds.all isDigit && !ds.isEmpty then
    let v : Int := if neg then -(digitsValue ds : Int) else (digitsValue ds : Int)
    if -(2 : Int) ^ 63 ≤ v ∧ v < (2 : Int) ^ 63 then some v else none
  else none

/-- Store a JSON value into a `string` field: `null` leaves it as it is,
anything but a string is a type error (`none`). -/
def setString (v : Value) (old : String) : Option String :=
  match v with
  | .string s => some s
  | .null => some old
  | _ => none

/-- Store a JSON value into an `int` field. -/
def setInt (v : Value) (old : Int) : Option Int :=
  match v with
  | .number lit => parseInt64 lit
  | .null => some old
  | _ => none

/-- Store the members of an object one after the other, in input order. -/
def setMembers {α : Type} (set : α → String → Value → Option α) :
    List (String × Value) → α → Option α
  | [], a => some a
  | (key, v) :: rest, a =>
    match set a key v with
    | some a1 => setMembers set rest a1
    | none => none

/-- Store a JSON value into a struct: an object fills the fields its keys
select, `null` leaves the struct as it is, anything else is a type error. -/
def setStruct {α : Type} (set : α → String → Value → Option α) (v : Value) (old : α) :
    Option α :=
  match v with
  | .object ms => setMembers set ms old
  | .null => some old
  | _ => none

/-- One member of a JSON object stored into an `ErrorStruct`. -/
def setErrorField (es : ErrorStruct) (key : String) (v : Value) : Option ErrorStruct :=
  if fieldMatches "Message" key then
    (setString v es.Message).map fun s => { es with Message := s }
  else if fieldMatches "Error" key then
    (setString v es.Error2).map fun s => { es with Error2 := s }
  else if fieldMatches "Code" key then
    (setInt v es.Code).map fun n => { es with Code := n }
  else if fieldMatches "Type" key then
    (setString v es.Type_).map fun s => { es with Type_ := s }
  else some es

/-- One member of a JSON object stored into a `FileStoreKey`. -/
def setKeyField (k : FileStoreKey) (key : String) (v : Value) : Option FileStoreKey :=
  if fieldMatches "/" key then (setString v k.Slash).map fun s => { k with Slash := s }
  else some k

/-- One member of a JSON object stored into a `FileStoreEntry`. -/
def setEntryField (e : FileStoreEntry) (key : String) (v : Value) : Option FileStoreEntry :=
  if fieldMatches "Status" key then (setInt v e.Status).map fun n => { e with Status := n }
  else if fieldMatches "Key" key then
    (setStruct setKeyField v e.Key).map fun k => { e with Key := k }
  else some e

/-- Go `json.Unmarshal(body, new(ErrorStruct))`: the struct when it returns
no error. The body has to be exactly one JSON value, white space aside. -/
def Unmarshal (body : String) : Option ErrorStruct :=
  match readValue body.data with
  | .ok v rest =>
    if (skipSpace rest).isEmpty then setStruct setErrorField v ⟨"", "", 0, ""⟩ else none
  | _ => none

/-! ### `json.Decoder` -/

/-- The errors `Decode` can return. The first four come from reading the
input and are kept by the decoder; the last one comes from storing a
complete value and is not. -/
inductive DecodeError where
  | invalidCharacter (c : Char)
  | unexpectedEOF
  | endOfInput
  | nestingTooDeep
  | typeMismatch
deriving DecidableEq, Repr

/-- State of a `json.Decoder`: the input not yet consumed and the field `err`. -/
structure Decoder where
  buf : List Char
  err : Option DecodeError
deriving DecidableEq, Repr

/-- Go `json.NewDecoder(r)` for a reader that delivers `body` and then ends. -/
def NewDecoder (body : String) : Decoder := ⟨body.data, none⟩

/-- Go `(*Decoder).More`: `c, err := dec.peek(); return err == nil && c != ']'
&& c != '}'`, where `peek` moves to the next character that is not white
space and fails only at the end of the input. It reads neither the field
`err` nor more than that one character. -/
def Decoder.More (d : Decoder) : Bool × Decoder :=
  match skipSpace d.buf with
  | [] => (false, { d with buf := [] })
  | c :: cs => (c != ']' && c != '}', { d with buf := c :: cs })

/-- Go `(*Decoder).Decode(new(FileStoreEntry))`. The method starts with
`if dec.err != nil { return dec.err }`: an error kept from an earlier call is
returned at once and nothing is read. Otherwise one value is read
(`readValue`): an error while reading is stored in `dec.err` before it is
returned and nothing is consumed; a complete value is consumed and stored
into a fresh entry, and a type error there is returned without being kept.
At the end of the input the error is `io.EOF` when only white space was left
and `io.ErrUnexpectedEOF` otherwise. -/
def Decoder.Decode (d : Decoder) : Except DecodeError FileStoreEntry × Decoder :=
  match d.err with
  | some e => (.error e, d)
  | none =>
    match readValue d.buf with
    | .ok v rest =>
      match setStruct setEntryField v ⟨0, ⟨""⟩⟩ with
      | some entry => (.ok entry, { d with buf := rest })
      | none => (.error .typeMismatch, { d with buf := rest })
    | .invalid c => (.error (.invalidCharacter c), { d with err := some (.invalidCharacter c) })
    | .eof =>
      if (skipSpace d.buf).isEmpty then (.error .endOfInput, { d with err := some .endOfInput })
      else (.error .unexpectedEOF, { d with err := some .unexpectedEOF })
    | .tooDeep => (.error .nestingTooDeep, { d with err := some .nestingTooDeep })

end Json

/-- The verify stream as the program reads it: a `json.Decoder` over the
bytes of the response. `render` gives the text of a decoding error. -/
def jsonStream (render : Json.DecodeError → String) : StreamDecoder Json.Decoder where
  More := Json.Decoder.More
  Decode := fun d =>
    match d.Decode with
    | (.ok entry, d1) => (.ok entry, d1)
    | (.error e, d1) => (.error (render e), d1)

/-! ## Vocabulary of the statements -/

/-- The request of a `block/rm` call for `key`, with the configured timeout. -/
def blockRm (cfg : Config) (key : String) : Request :=
  requestFor cfg cfg.TimeoutTime ("block/rm?arg=" ++ key)

/-- The request of a `pin/rm` call for `cid`, without timeout. -/
def pinRm (cfg : Config) (cid : String) : Request :=
  requestFor cfg 0 ("pin/rm?arg=" ++ cid)

/-- Whether a call returned an error whose text begins with `pinned`. -/
def Call.isPinnedFailure (c : Call) : Bool :=
  match c.err with
  | some e => HasPrefix e.Error "pinned"
  | none => false

/-- The records of a stream whose status is the missing-file value. -/
def sentinels (rs : List FileStoreEntry) : List FileStoreEntry :=
  rs.filter fun r => r.Status = NoFile

/-- The configuration the flags give by default (main.go:21-27). -/
def defaultConfig : Config := ⟨"http://127.0.0.1:5001", 30000000000, false⟩

/-- The requests of `n` rounds of the retry loop for key `k` when every round
unpins `p`: `pin/rm?arg=p`, `block/rm?arg=k`, `n` times over. -/
def retries (cfg : Config) (k p : String) : Nat → List Request
  | 0 => []
  | n + 1 => pinRm cfg p :: blockRm cfg k :: retries cfg k p n

/-- Whether a request is a `block/rm` call. -/
def Request.isBlockRm (cfg : Config) (r : Request) : Bool :=
  HasPrefix r.url (cfg.EndPoint ++ API ++ "block/rm?arg=")

/-- Whether a request is a `pin/rm` call. -/
def Request.isPinRm (cfg : Config) (r : Request) : Bool :=
  HasPrefix r.url (cfg.EndPoint ++ API ++ "pin/rm?arg=")

/-- The requests of a retry loop for key `k` that unpins the identifiers
`ps` one after the other: `block/rm?arg=k`, then for each `p` the pair
`pin/rm?arg=p`, `block/rm?arg=k`. -/
def unwinding (cfg : Config) (k : String) : List String → List Request
  | [] => [blockRm cfg k]
  | p :: ps => blockRm cfg k :: pinRm cfg p :: unwinding cfg k ps

/-- A node on which block `A` is protected by up to two pins, `QmA` and
`QmB`; the state says which of them are set. `block/rm?arg=A` is refused with
the name of a pin while one is set, and each `pin/rm` clears its pin. -/
def twoPinStore : Node (Bool × Bool) := fun s req =>
  if req = blockRm defaultConfig "A" then
    if s.1 then (.body "\x7b\"Message\":\"pinned via QmA\"\x7d", s)
    else if s.2 then (.body "\x7b\"Message\":\"pinned via QmB\"\x7d", s)
    else (.body "\x7b\"Hash\":\"A\"\x7d", s)
  else if req = pinRm defaultConfig "QmA" then (.body "\x7b\"Pins\":[\"QmA\"]\x7d", (false, s.2))
  else if req = pinRm defaultConfig "QmB" then (.body "\x7b\"Pins\":[\"QmB\"]\x7d", (s.1, false))
  else (.body "", s)

/-- The pins set in a state of `twoPinStore`. -/
def twoPins (s : Bool × Bool) : Finset String :=
  (if s.1 then {"QmA"} else ∅) ∪ (if s.2 then {"QmB"} else ∅)

/-- Whether a log line is the report of a failed removal (main.go:130). -/
def isRemovalFailureLine (line : String) : Bool :=
  HasPrefix line "Error removing bad block:"

/-- A node that gives the same answer to every request. -/
def reply (r : HttpResult) : Node Unit := fun _ _ => (r, ())

/-- A node that gives the listed answers one after the other, whatever the
request, and an empty body once the list is used up. -/
def scripted : Node (List HttpResult) := fun s _ =>
  match s with
  | [] => (.body "", [])
  | r :: rest => (r, rest)

/-! ## Basic facts about `doRequest` and the loops -/

section Facts

variable {σ : Type}

/-- The world after `doRequest`: the node has moved on, one call has been
recorded, the log is as it was. -/
theorem doRequest_world (unmarshal : String → Option ErrorStruct) (node : Node σ) (cfg : Config)
    (timeout : Int) (cmd : String) (w : World σ) :
    (doRequest unmarshal node cfg timeout cmd w).2 =
      ⟨(node w.node (requestFor cfg timeout cmd)).2,
        w.calls ++ [⟨requestFor cfg timeout cmd,
          (doRequest unmarshal node cfg timeout cmd w).1.1,
          (doRequest unmarshal node cfg timeout cmd w).1.2⟩],
        w.logs⟩ := by
  rcases h : node w.node (requestFor cfg timeout cmd) with ⟨r, s⟩
  cases r with
  | failure text => simp [doRequest, h]
  | body body =>
    cases hu : unmarshal body with
    | none => simp [doRequest, h, hu]
    | some es =>
      by_cases he : es.Error = "" <;> simp [doRequest, h, hu, he]

theorem doRequest_calls (unmarshal : String → Option ErrorStruct) (node : Node σ) (cfg : Config)
    (timeout : Int) (cmd : String) (w : World σ) :
    (doRequest unmarshal node cfg timeout cmd w).2.calls =
      w.calls ++ [⟨requestFor cfg timeout cmd,
          (doRequest unmarshal node cfg timeout cmd w).1.1,
          (doRequest unmarshal node cfg timeout cmd w).1.2⟩] := by
  rw [doRequest_world]

theorem doRequest_requests (unmarshal : String → Option ErrorStruct) (node : Node σ)
    (cfg : Config) (timeout : Int) (cmd : String) (w : World σ) :
    (doRequest unmarshal node cfg timeout cmd w).2.requests =
      w.requests ++ [requestFor cfg timeout cmd] := by
  simp [World.requests, doRequest_calls]

theorem doRequest_logs (unmarshal : String → Option ErrorStruct) (node : Node σ) (cfg : Config)
    (timeout : Int) (cmd : String) (w : World σ) :
    (doRequest unmarshal node cfg timeout cmd w).2.logs = w.logs := by
  rw [doRequest_world]

theorem doRequest_node (unmarshal : String → Option ErrorStruct) (node : Node σ) (cfg : Config)
    (timeout : Int) (cmd : String) (w : World σ) :
    (doRequest unmarshal node cfg timeout cmd w).2.node =
      (node w.node (requestFor cfg timeout cmd)).2 := by
  rw [doRequest_world]

@[simp] theorem log_calls (w : World σ) (line : String) : (w.log line).calls = w.calls := rfl

@[simp] theorem log_requests (w : World σ) (line : String) :
    (w.log line).requests = w.requests := rfl

@[simp] theorem log_node (w : World σ) (line : String) : (w.log line).node = w.node := rfl

@[simp] theorem log_logs (w : World σ) (line : String) :
    (w.log line).logs = w.logs ++ [line] := rfl

/-- The error text of an envelope is empty exactly when both text fields are. -/
theorem ErrorStruct.Error_eq_empty_iff (es : ErrorStruct) :
    es.Error = "" ↔ es.Message = "" ∧ es.Error2 = "" := by
  unfold ErrorStruct.Error
  by_cases h1 : es.Message = "" <;> by_cases h2 : es.Error2 = "" <;> simp [h1, h2]

/-- The error text of an envelope: `Message` when it is set, else `Error`. -/
theorem ErrorStruct.Error_eq (es : ErrorStruct) :
    es.Error = if es.Message ≠ "" then es.Message else es.Error2 := by
  unfold ErrorStruct.Error
  by_cases h1 : es.Message = "" <;> by_cases h2 : es.Error2 = "" <;> simp [h1, h2]

/-- The results of `doRequest` when the HTTP layer delivers a body. -/
theorem doRequest_of_body (unmarshal : String → Option ErrorStruct) (node : Node σ)
    (cfg : Config) (timeout : Int) (cmd : String) (w : World σ) (body : String) (s : σ)
    (h : node w.node (requestFor cfg timeout cmd) = (.body body, s)) :
    (doRequest unmarshal node cfg timeout cmd w).1 =
      (body,
        match unmarshal body with
        | some es => if es.Error ≠ "" then some (.api es) else none
        | none => none) := by
  cases hu : unmarshal body with
  | none => simp [doRequest, h, hu]
  | some es => by_cases he : es.Error = "" <;> simp [doRequest, h, hu, he]

/-- The results of `doRequest` when the HTTP layer fails. -/
theorem doRequest_of_failure (unmarshal : String → Option ErrorStruct) (node : Node σ)
    (cfg : Config) (timeout : Int) (cmd : String) (w : World σ) (text : String) (s : σ)
    (h : node w.node (requestFor cfg timeout cmd) = (.failure text, s)) :
    (doRequest unmarshal node cfg timeout cmd w).1 = ("", some (.transport text)) := by
  simp [doRequest, h]

theorem splitChars_ne_nil (sep : Char) (cs : List Char) : splitChars sep cs ≠ [] := by
  induction cs with
  | nil => simp [splitChars]
  | cons c cs ih =>
    unfold splitChars
    split
    · simp
    · split <;> simp

theorem splitChars_append_sep (sep : Char) (a b : List Char) (ha : sep ∉ a) :
    splitChars sep (a ++ sep :: b) = a :: splitChars sep b := by
  induction a with
  | nil => simp [splitChars]
  | cons c cs ih =>
    have hc : c ≠ sep := fun h => ha (by simp [h])
    have hcs : sep ∉ cs := fun h => ha (by simp [h])
    rw [List.cons_append, splitChars, if_neg hc, ih hcs]

theorem splitChars_no_sep (sep : Char) (a : List Char) (ha : sep ∉ a) :
    splitChars sep a = [a] := by
  induction a with
  | nil => simp [splitChars]
  | cons c cs ih =>
    have hc : c ≠ sep := fun h => ha (by simp [h])
    have hcs : sep ∉ cs := fun h => ha (by simp [h])
    rw [splitChars, if_neg hc, ih hcs]

end Facts

section Loops

variable {σ : Type}

theorem unpin_calls (unmarshal : String → Option ErrorStruct) (node : Node σ) (cfg : Config)
    (cid : String) (w : World σ) :
    ∃ c : Call, c.req = pinRm cfg cid ∧
      (unpin unmarshal node cfg cid w).calls = w.calls ++ [c] := by
  refine ⟨⟨pinRm cfg cid,
    (doRequest unmarshal node cfg 0 ("pin/rm?arg=" ++ cid)
      (w.log ("Effected block is pinned, removing pin: " ++ cid))).1.1,
    (doRequest unmarshal node cfg 0 ("pin/rm?arg=" ++ cid)
      (w.log ("Effected block is pinned, removing pin: " ++ cid))).1.2⟩, rfl, ?_⟩
  unfold unpin
  simp only
  split <;> simp [doRequest_calls, pinRm]

theorem unpin_requests (unmarshal : String → Option ErrorStruct) (node : Node σ) (cfg : Config)
    (cid : String) (w : World σ) :
    (unpin unmarshal node cfg cid w).requests = w.requests ++ [pinRm cfg cid] := by
  obtain ⟨c, hc, h⟩ := unpin_calls unmarshal node cfg cid w
  simp [World.requests, h, hc]

theorem unpin_node (unmarshal : String → Option ErrorStruct) (node : Node σ) (cfg : Config)
    (cid : String) (w : World σ) :
    (unpin unmarshal node cfg cid w).node = (node w.node (pinRm cfg cid)).2 := by
  unfold unpin
  simp only
  split <;> simp [doRequest_node, pinRm]

theorem removeLoop_none (unmarshal : String → Option ErrorStruct) (node : Node σ)
    (cfg : Config) (key : String) (fuel : Nat) (w : World σ) :
    removeLoop unmarshal node cfg key fuel none w = ⟨.finished, none, w⟩ := by
  cases fuel <;> rfl

theorem removeLoop_not_pinned (unmarshal : String → Option ErrorStruct) (node : Node σ)
    (cfg : Config) (key : String) (fuel : Nat) (err : GoError) (w : World σ)
    (h : HasPrefix err.Error "pinned" = false) :
    removeLoop unmarshal node cfg key fuel (some err) w = ⟨.finished, some err, w⟩ := by
  cases fuel <;> simp [removeLoop, h]

theorem removeLoop_zero (unmarshal : String → Option ErrorStruct) (node : Node σ)
    (cfg : Config) (key : String) (err : GoError) (w : World σ)
    (h : HasPrefix err.Error "pinned" = true) :
    removeLoop unmarshal node cfg key 0 (some err) w = ⟨.exhausted, some err, w⟩ := by
  simp [removeLoop, h]

theorem removeLoop_panic (unmarshal : String → Option ErrorStruct) (node : Node σ)
    (cfg : Config) (key : String) (fuel : Nat) (err : GoError) (w : World σ)
    (h : HasPrefix err.Error "pinned" = true) (hp : pinIdentifier err.Error = none) :
    removeLoop unmarshal node cfg key (fuel + 1) (some err) w =
      ⟨.indexOutOfRange 2 (Split err.Error).length, some err, w⟩ := by
  simp [removeLoop, h, hp]

theorem removeLoop_step (unmarshal : String → Option ErrorStruct) (node : Node σ)
    (cfg : Config) (key : String) (fuel : Nat) (err : GoError) (w : World σ) (cid : String)
    (h : HasPrefix err.Error "pinned" = true) (hp : pinIdentifier err.Error = some cid) :
    removeLoop unmarshal node cfg key (fuel + 1) (some err) w =
      removeLoop unmarshal node cfg key fuel
        (doRequest unmarshal node cfg cfg.TimeoutTime ("block/rm?arg=" ++ key)
          (unpin unmarshal node cfg cid w)).1.2
        (doRequest unmarshal node cfg cfg.TimeoutTime ("block/rm?arg=" ++ key)
          (unpin unmarshal node cfg cid w)).2 := by
  simp [removeLoop, h, hp]

/-- The calls recorded before a loop starts are still there, in the same
order, when it stops. -/
theorem removeLoop_calls_prefix (unmarshal : String → Option ErrorStruct) (node : Node σ)
    (cfg : Config) (key : String) (fuel : Nat) (err : Option GoError) (w : World σ) :
    ∃ cs, (removeLoop unmarshal node cfg key fuel err w).world.calls = w.calls ++ cs := by
  induction fuel generalizing err w with
  | zero =>
    cases err with
    | none => exact ⟨[], by simp [removeLoop_none]⟩
    | some e =>
      cases h : HasPrefix e.Error "pinned" with
      | false => exact ⟨[], by simp [removeLoop_not_pinned _ _ _ _ _ _ _ h]⟩
      | true => exact ⟨[], by simp [removeLoop_zero _ _ _ _ _ _ h]⟩
  | succ n ih =>
    cases err with
    | none => exact ⟨[], by simp [removeLoop_none]⟩
    | some e =>
      cases h : HasPrefix e.Error "pinned" with
      | false => exact ⟨[], by simp [removeLoop_not_pinned _ _ _ _ _ _ _ h]⟩
      | true =>
        cases hp : pinIdentifier e.Error with
        | none => exact ⟨[], by simp [removeLoop_panic _ _ _ _ _ _ _ h hp]⟩
        | some cid =>
          rw [removeLoop_step _ _ _ _ _ _ _ cid h hp]
          obtain ⟨cs, hcs⟩ := ih
            (doRequest unmarshal node cfg cfg.TimeoutTime ("block/rm?arg=" ++ key)
              (unpin unmarshal node cfg cid w)).1.2
            (doRequest unmarshal node cfg cfg.TimeoutTime ("block/rm?arg=" ++ key)
              (unpin unmarshal node cfg cid w)).2
          obtain ⟨c, _, hc⟩ := unpin_calls unmarshal node cfg cid w
          rw [hcs, doRequest_calls, hc]
          simp only [List.append_assoc]
          exact ⟨_, rfl⟩

end Loops

/-! ## Error classification (`doRequest`, `ErrorStruct.Error`) -/

/-- C1. Whenever the HTTP layer delivers a body, `doRequest` returns that
body unchanged; it returns no error when the body does not decode as an
`ErrorStruct` or decodes with `Message` and `Error` both empty, and otherwise
an error whose text is `Message` when that is non-empty and `Error` when it is
not. With the JSON decoding of the standard library, the body
`{"Message":"boom"}` gives the error text `boom`, `{"Error":"boom2"}` gives
`boom2`, and `{"Hash":"Qm..."}` gives no error. -/
theorem doRequest_error_classification {σ : Type} (unmarshal : String → Option ErrorStruct)
    (node : Node σ) (cfg : Config) (timeout : Int) (cmd : String) (w : World σ)
    (body : String) (s : σ)
    (h : node w.node (requestFor cfg timeout cmd) = (.body body, s)) :
    (doRequest unmarshal node cfg timeout cmd w).1.1 = body ∧
    (unmarshal body = none → (doRequest unmarshal node cfg timeout cmd w).1.2 = none) ∧
    (∀ es, unmarshal body = some es → es.Message = "" → es.Error2 = "" →
      (doRequest unmarshal node cfg timeout cmd w).1.2 = none) ∧
    (∀ es, unmarshal body = some es → ¬ (es.Message = "" ∧ es.Error2 = "") →
      ∃ err, (doRequest unmarshal node cfg timeout cmd w).1.2 = some err ∧
        err.Error = (if es.Message ≠ "" then es.Message else es.Error2)) ∧
    ((doRequest Json.Unmarshal (reply (.body "\x7b\"Message\":\"boom\"\x7d")) cfg timeout cmd
        (World.init ())).1 =
      ("\x7b\"Message\":\"boom\"\x7d", some (.api ⟨"boom", "", 0, ""⟩)) ∧
      (GoError.api ⟨"boom", "", 0, ""⟩).Error = "boom") ∧
    ((doRequest Json.Unmarshal (reply (.body "\x7b\"Error\":\"boom2\"\x7d")) cfg timeout cmd
        (World.init ())).1 =
      ("\x7b\"Error\":\"boom2\"\x7d", some (.api ⟨"", "boom2", 0, ""⟩)) ∧
      (GoError.api ⟨"", "boom2", 0, ""⟩).Error = "boom2") ∧
    (doRequest Json.Unmarshal (reply (.body "\x7b\"Hash\":\"Qm...\"\x7d")) cfg timeout cmd
        (World.init ())).1 =
      ("\x7b\"Hash\":\"Qm...\"\x7d", none) := by
  have hr := doRequest_of_body unmarshal node cfg timeout cmd w body s h
  refine ⟨by rw [hr], ?_, ?_, ?_, ?_, ?_, ?_⟩
  · intro hu
    rw [hr, hu]
  · intro es hu h1 h2
    rw [hr, hu]
    simp [(ErrorStruct.Error_eq_empty_iff es).2 ⟨h1, h2⟩]
  · intro es hu hne
    refine ⟨.api es, ?_, ?_⟩
    · rw [hr, hu]
      have : es.Error ≠ "" := fun he => hne ((ErrorStruct.Error_eq_empty_iff es).1 he)
      simp [this]
    · exact ErrorStruct.Error_eq es
  · refine ⟨?_, by decide⟩
    rw [doRequest_of_body Json.Unmarshal _ cfg timeout cmd (World.init ()) _ () rfl]
    have hu : Json.Unmarshal "\x7b\"Message\":\"boom\"\x7d" = some ⟨"boom", "", 0, ""⟩ := by
      decide
    rw [hu]
    have : (ErrorStruct.mk "boom" "" 0 "").Error ≠ "" := by decide
    simp [this]
  · refine ⟨?_, by decide⟩
    rw [doRequest_of_body Json.Unmarshal _ cfg timeout cmd (World.init ()) _ () rfl]
    have hu : Json.Unmarshal "\x7b\"Error\":\"boom2\"\x7d" = some ⟨"", "boom2", 0, ""⟩ := by
      decide
    rw [hu]
    have : (ErrorStruct.mk "" "boom2" 0 "").Error ≠ "" := by decide
    simp [this]
  · rw [doRequest_of_body Json.Unmarshal _ cfg timeout cmd (World.init ()) _ () rfl]
    have hu : Json.Unmarshal "\x7b\"Hash\":\"Qm...\"\x7d" = some ⟨"", "", 0, ""⟩ := by
      decide
    rw [hu]
    have : (ErrorStruct.mk "" "" 0 "").Error = "" := by decide
    simp [this]

/-- C1, at a concrete call: a node answering `{"Message":"boom","Error":"x"}`
makes `doRequest` return that body and an error with text `boom`. -/
theorem doRequest_error_classification_witness :
    reply (.body "\x7b\"Message\":\"boom\",\"Error\":\"x\"\x7d") (World.init ()).node
        (requestFor ⟨"http://127.0.0.1:5001", 30000000000, false⟩ 30000000000 "version") =
      (.body "\x7b\"Message\":\"boom\",\"Error\":\"x\"\x7d", ()) ∧
    (doRequest Json.Unmarshal (reply (.body "\x7b\"Message\":\"boom\",\"Error\":\"x\"\x7d"))
      ⟨"http://127.0.0.1:5001", 30000000000, false⟩ 30000000000 "version"
      (World.init ())).1.1 = "\x7b\"Message\":\"boom\",\"Error\":\"x\"\x7d" ∧
    ∃ err, (doRequest Json.Unmarshal
        (reply (.body "\x7b\"Message\":\"boom\",\"Error\":\"x\"\x7d"))
        ⟨"http://127.0.0.1:5001", 30000000000, false⟩ 30000000000 "version"
        (World.init ())).1.2 = some err ∧ err.Error = "boom" := by
  have h := doRequest_error_classification Json.Unmarshal
    (reply (.body "\x7b\"Message\":\"boom\",\"Error\":\"x\"\x7d"))
    ⟨"http://127.0.0.1:5001", 30000000000, false⟩ 30000000000 "version" (World.init ())
    "\x7b\"Message\":\"boom\",\"Error\":\"x\"\x7d" () rfl
  refine ⟨rfl, h.1, ?_⟩
  obtain ⟨err, h1, h2⟩ := h.2.2.2.1 ⟨"boom", "x", 0, ""⟩ (by decide) (by decide)
  exact ⟨err, h1, by rw [h2]; decide⟩

/-! ## The pin identifier taken from an error text -/

/-- C5 fails as stated: for the identifier `QmXYZ`, which has no space, the
token at index 2 of `pinned: cannot remove QmXYZ because it is pinned` is
`remove`, not the identifier. -/
theorem pinIdentifier_is_not_the_cid :
    ' ' ∉ "QmXYZ".data ∧
    pinIdentifier "pinned: cannot remove QmXYZ because it is pinned" = some "remove" ∧
    pinIdentifier "pinned: cannot remove QmXYZ because it is pinned" ≠ some "QmXYZ" := by
  decide

/-- C5, amended. For every identifier `cid` without a space, the pin
identifier extracted from `pinned: cannot remove <cid> because it is pinned`
is the token at index 2 of that text, which is `remove`, while `cid` is the
token at index 3; the extracted identifier is `cid` for the texts in which
`cid` is the third token, such as `pinned by <cid> directly` and
`pinned via <cid>`. -/
theorem pinIdentifier_third_token (cid : String) (h : ' ' ∉ cid.data) :
    pinIdentifier ("pinned: cannot remove " ++ cid ++ " because it is pinned") = some "remove" ∧
    (Split ("pinned: cannot remove " ++ cid ++ " because it is pinned"))[3]? = some cid ∧
    pinIdentifier ("pinned by " ++ cid ++ " directly") = some cid ∧
    pinIdentifier ("pinned via " ++ cid) = some cid := by
  have h1 : ("pinned: cannot remove " ++ cid ++ " because it is pinned").data =
      "pinned:".data ++ ' ' :: ("cannot".data ++ ' ' :: ("remove".data ++ ' ' ::
        (cid.data ++ ' ' :: "because it is pinned".data))) := by
    simp [String.data_append]
  have h2 : ("pinned by " ++ cid ++ " directly").data =
      "pinned".data ++ ' ' :: ("by".data ++ ' ' :: (cid.data ++ ' ' :: "directly".data)) := by
    simp [String.data_append]
  have h3 : ("pinned via " ++ cid).data =
      "pinned".data ++ ' ' :: ("via".data ++ ' ' :: cid.data) := by
    simp [String.data_append]
  refine ⟨?_, ?_, ?_, ?_⟩
  · unfold pinIdentifier Split
    rw [h1, splitChars_append_sep _ _ _ (by decide), splitChars_append_sep _ _ _ (by decide),
      splitChars_append_sep _ _ _ (by decide)]
    simp
  · unfold Split
    rw [h1, splitChars_append_sep _ _ _ (by decide), splitChars_append_sep _ _ _ (by decide),
      splitChars_append_sep _ _ _ (by decide), splitChars_append_sep _ _ _ h]
    simp
  · unfold pinIdentifier Split
    rw [h2, splitChars_append_sep _ _ _ (by decide), splitChars_append_sep _ _ _ (by decide),
      splitChars_append_sep _ _ _ h]
    simp
  · unfold pinIdentifier Split
    rw [h3, splitChars_append_sep _ _ _ (by decide), splitChars_append_sep _ _ _ (by decide),
      splitChars_no_sep _ _ h]
    simp

/-- C5, amended, at the identifier `QmXYZ`. -/
theorem pinIdentifier_third_token_witness :
    ' ' ∉ "QmXYZ".data ∧
    pinIdentifier ("pinned: cannot remove " ++ "QmXYZ" ++ " because it is pinned") =
      some "remove" ∧
    pinIdentifier ("pinned by " ++ "QmXYZ" ++ " directly") = some "QmXYZ" :=
  ⟨by decide, (pinIdentifier_third_token "QmXYZ" (by decide)).1,
    (pinIdentifier_third_token "QmXYZ" (by decide)).2.2.1⟩

/-! ## The pin-unwind step -/

/-- C4. Let `err` be an error whose text begins with `pinned` and has a token
`p` at index 2 (so at least three tokens when split on single spaces). The
request `pin/rm?arg=p` carries no deadline, the request `block/rm?arg=k` the
configured one. (1) Whenever the loop variable of the `for` statement for key `k` holds `err`,
the next two calls are `pin/rm?arg=p` without timeout and then
`block/rm?arg=k` with the configured timeout, whatever the node answers to the
unpin call. (2) In particular, when the first `block/rm?arg=k` call of a
record returns `err`, the calls for that record start with `block/rm?arg=k`,
`pin/rm?arg=p`, `block/rm?arg=k`. (3) When `block/rm?arg=A` first fails with
`pinned by QmXYZ directly` and then succeeds, the calls are exactly
`block/rm?arg=A`, `pin/rm?arg=QmXYZ`, `block/rm?arg=A`, whether the unpin call
succeeds or fails. -/
theorem pin_unwind_step {σ : Type} (unmarshal : String → Option ErrorStruct) (node : Node σ)
    (cfg : Config) (fuel : Nat) (k p : String) (err : GoError)
    (hpinned : HasPrefix err.Error "pinned" = true)
    (htoken : pinIdentifier err.Error = some p) :
    (pinRm cfg p = ⟨cfg.EndPoint ++ API ++ ("pin/rm?arg=" ++ p), none⟩ ∧
      blockRm cfg k =
        ⟨cfg.EndPoint ++ API ++ ("block/rm?arg=" ++ k), deadlineOf cfg.TimeoutTime⟩) ∧
    (∀ w : World σ, ∃ rest,
      (removeLoop unmarshal node cfg k (fuel + 1) (some err) w).world.requests =
        w.requests ++ [pinRm cfg p, blockRm cfg k] ++ rest) ∧
    (∀ w : World σ,
      (doRequest unmarshal node cfg cfg.TimeoutTime ("block/rm?arg=" ++ k) w).1.2 = some err →
      ∃ rest, (removeBlock unmarshal node cfg (fuel + 1) k w).world.requests =
        w.requests ++ [blockRm cfg k, pinRm cfg p, blockRm cfg k] ++ rest) ∧
    (∀ unpinAnswer : HttpResult,
      (removeBlock Json.Unmarshal scripted cfg (fuel + 1) "A"
        (World.init
          [.body "\x7b\"Message\":\"pinned by QmXYZ directly\"\x7d", unpinAnswer,
            .body "\x7b\"Hash\":\"A\"\x7d"])).world.requests =
        [blockRm cfg "A", pinRm cfg "QmXYZ", blockRm cfg "A"] ∧
      (removeBlock Json.Unmarshal scripted cfg (fuel + 1) "A"
        (World.init
          [.body "\x7b\"Message\":\"pinned by QmXYZ directly\"\x7d", unpinAnswer,
            .body "\x7b\"Hash\":\"A\"\x7d"])).status = .finished) := by
  have step : ∀ w : World σ, ∃ rest,
      (removeLoop unmarshal node cfg k (fuel + 1) (some err) w).world.requests =
        w.requests ++ [pinRm cfg p, blockRm cfg k] ++ rest := by
    intro w
    rw [removeLoop_step _ _ _ _ _ _ _ p hpinned htoken]
    obtain ⟨cs, hcs⟩ := removeLoop_calls_prefix unmarshal node cfg k fuel
      (doRequest unmarshal node cfg cfg.TimeoutTime ("block/rm?arg=" ++ k)
        (unpin unmarshal node cfg p w)).1.2
      (doRequest unmarshal node cfg cfg.TimeoutTime ("block/rm?arg=" ++ k)
        (unpin unmarshal node cfg p w)).2
    refine ⟨cs.map Call.req, ?_⟩
    simp only [World.requests] at *
    rw [hcs, List.map_append, ← World.requests, doRequest_requests, unpin_requests]
    simp [World.requests, blockRm]
  refine ⟨⟨rfl, rfl⟩, step, ?_, ?_⟩
  · intro w hw
    unfold removeBlock
    simp only
    rw [hw]
    obtain ⟨rest, hrest⟩ := step
      (doRequest unmarshal node cfg cfg.TimeoutTime ("block/rm?arg=" ++ k) w).2
    refine ⟨rest, ?_⟩
    rw [hrest, doRequest_requests]
    simp [blockRm]
  · intro unpinAnswer
    have hu1 : Json.Unmarshal "\x7b\"Message\":\"pinned by QmXYZ directly\"\x7d" =
        some ⟨"pinned by QmXYZ directly", "", 0, ""⟩ := by decide
    have hu2 : Json.Unmarshal "\x7b\"Hash\":\"A\"\x7d" = some ⟨"", "", 0, ""⟩ := by decide
    have e1 : (doRequest Json.Unmarshal scripted cfg cfg.TimeoutTime ("block/rm?arg=" ++ "A")
        (World.init
          [.body "\x7b\"Message\":\"pinned by QmXYZ directly\"\x7d", unpinAnswer,
            .body "\x7b\"Hash\":\"A\"\x7d"])).1.2 =
        some (.api ⟨"pinned by QmXYZ directly", "", 0, ""⟩) := by
      rw [doRequest_of_body Json.Unmarshal scripted cfg cfg.TimeoutTime ("block/rm?arg=" ++ "A")
        (World.init
          [.body "\x7b\"Message\":\"pinned by QmXYZ directly\"\x7d", unpinAnswer,
            .body "\x7b\"Hash\":\"A\"\x7d"])
        "\x7b\"Message\":\"pinned by QmXYZ directly\"\x7d"
        [unpinAnswer, .body "\x7b\"Hash\":\"A\"\x7d"] rfl, hu1]
      have : (ErrorStruct.mk "pinned by QmXYZ directly" "" 0 "").Error ≠ "" := by decide
      simp [this]
    have n1 : (doRequest Json.Unmarshal scripted cfg cfg.TimeoutTime ("block/rm?arg=" ++ "A")
        (World.init
          [.body "\x7b\"Message\":\"pinned by QmXYZ directly\"\x7d", unpinAnswer,
            .body "\x7b\"Hash\":\"A\"\x7d"])).2.node =
        [unpinAnswer, .body "\x7b\"Hash\":\"A\"\x7d"] := by
      rw [doRequest_node]
      rfl
    have n2 : scripted (unpin Json.Unmarshal scripted cfg "QmXYZ"
        (doRequest Json.Unmarshal scripted cfg cfg.TimeoutTime ("block/rm?arg=" ++ "A")
          (World.init
            [.body "\x7b\"Message\":\"pinned by QmXYZ directly\"\x7d", unpinAnswer,
              .body "\x7b\"Hash\":\"A\"\x7d"])).2).node
        (requestFor cfg cfg.TimeoutTime ("block/rm?arg=" ++ "A")) =
        (.body "\x7b\"Hash\":\"A\"\x7d", []) := by
      rw [unpin_node, n1]
      rfl
    have e2 := doRequest_of_body Json.Unmarshal scripted cfg _ _ _ _ _ n2
    rw [hu2] at e2
    have hz : (ErrorStruct.mk "" "" 0 "").Error = "" := by decide
    simp only [hz, ne_eq, not_true_eq_false, if_false] at e2
    unfold removeBlock
    simp only
    rw [e1, removeLoop_step _ _ _ _ _ _ _ "QmXYZ" (by decide) (by decide), e2, removeLoop_none]
    refine ⟨?_, rfl⟩
    simp only
    rw [doRequest_requests, unpin_requests, doRequest_requests]
    rfl

section Sweep

variable {σ : Type}

theorem removeBlock_calls_prefix (unmarshal : String → Option ErrorStruct) (node : Node σ)
    (cfg : Config) (fuel : Nat) (key : String) (w : World σ) :
    ∃ cs, (removeBlock unmarshal node cfg fuel key w).world.calls =
      w.calls ++ ⟨blockRm cfg key,
        (doRequest unmarshal node cfg cfg.TimeoutTime ("block/rm?arg=" ++ key) w).1.1,
        (doRequest unmarshal node cfg cfg.TimeoutTime ("block/rm?arg=" ++ key) w).1.2⟩ :: cs := by
  unfold removeBlock
  simp only
  obtain ⟨cs, hcs⟩ := removeLoop_calls_prefix unmarshal node cfg key fuel
    (doRequest unmarshal node cfg cfg.TimeoutTime ("block/rm?arg=" ++ key) w).1.2
    (doRequest unmarshal node cfg cfg.TimeoutTime ("block/rm?arg=" ++ key) w).2
  refine ⟨cs, ?_⟩
  rw [hcs, doRequest_calls]
  simp [blockRm]

/-- The calls recorded before a sweep starts are still there when it stops. -/
theorem sweepLoop_calls_prefix {δ : Type} (dec : StreamDecoder δ)
    (unmarshal : String → Option ErrorStruct) (node : Node σ) (cfg : Config)
    (inner outer : Nat) (d : δ) (w : World σ) :
    ∃ cs, (sweepLoop dec unmarshal node cfg inner outer d w).world.calls = w.calls ++ cs := by
  induction outer generalizing d w with
  | zero => exact ⟨[], by simp [sweepLoop]⟩
  | succ n ih =>
    unfold sweepLoop
    rcases hm : dec.More d with ⟨b, d1⟩
    cases b with
    | false => exact ⟨[], by simp⟩
    | true =>
      simp only
      rcases hd : dec.Decode d1 with ⟨res, d2⟩
      cases res with
      | error text =>
        simp only
        obtain ⟨cs, hcs⟩ := ih d2 (w.log ("Error decoding fsEntry stream: " ++ text))
        exact ⟨cs, by rw [hcs]; rfl⟩
      | ok e =>
        simp only
        by_cases hs : e.Status = NoFile
        · rw [if_pos hs]
          obtain ⟨cs, hcs⟩ := removeBlock_calls_prefix unmarshal node cfg inner e.Key.Slash
            (w.log ("Removing reference from filestore: " ++ e.Key.Slash))
          split
          · obtain ⟨cs1, hcs1⟩ := ih d2 (removeBlock unmarshal node cfg inner e.Key.Slash
              (w.log ("Removing reference from filestore: " ++ e.Key.Slash))).world
            rw [hcs1, hcs]
            simp only [log_calls, List.append_assoc]
            exact ⟨_, rfl⟩
          · simp only
            rw [hcs]
            exact ⟨_, rfl⟩
        · rw [if_neg hs]
          exact ih d2 w

theorem sweepLoop_records_nil (unmarshal : String → Option ErrorStruct) (node : Node σ)
    (cfg : Config) (inner outer : Nat) (w : World σ) :
    sweepLoop recordStream unmarshal node cfg inner (outer + 1) [] w = ⟨.finished, w⟩ := by
  simp [sweepLoop, recordStream]

theorem sweepLoop_records_skip (unmarshal : String → Option ErrorStruct) (node : Node σ)
    (cfg : Config) (inner outer : Nat) (r : FileStoreEntry) (rs : List FileStoreEntry)
    (w : World σ) (h : r.Status ≠ NoFile) :
    sweepLoop recordStream unmarshal node cfg inner (outer + 1) (r :: rs) w =
      sweepLoop recordStream unmarshal node cfg inner outer rs w := by
  simp [sweepLoop, recordStream, h]

theorem sweepLoop_records_sentinel (unmarshal : String → Option ErrorStruct) (node : Node σ)
    (cfg : Config) (inner outer : Nat) (r : FileStoreEntry) (rs : List FileStoreEntry)
    (w : World σ) (h : r.Status = NoFile) :
    sweepLoop recordStream unmarshal node cfg inner (outer + 1) (r :: rs) w =
      match (removeBlock unmarshal node cfg inner r.Key.Slash
          (w.log ("Removing reference from filestore: " ++ r.Key.Slash))).status with
      | .finished =>
        sweepLoop recordStream unmarshal node cfg inner outer rs
          (removeBlock unmarshal node cfg inner r.Key.Slash
            (w.log ("Removing reference from filestore: " ++ r.Key.Slash))).world
      | st =>
        ⟨st, (removeBlock unmarshal node cfg inner r.Key.Slash
          (w.log ("Removing reference from filestore: " ++ r.Key.Slash))).world⟩ := by
  simp only [sweepLoop, recordStream, h, List.isEmpty_cons, Bool.not_false, if_true]

/-- Records whose status is not the missing-file value are passed over. -/
theorem sweepLoop_records_sentinels (unmarshal : String → Option ErrorStruct) (node : Node σ)
    (cfg : Config) (inner : Nat) (rs : List FileStoreEntry) :
    ∀ (outer outer1 : Nat) (w : World σ), rs.length < outer → (sentinels rs).length < outer1 →
      sweepLoop recordStream unmarshal node cfg inner outer rs w =
        sweepLoop recordStream unmarshal node cfg inner outer1 (sentinels rs) w := by
  induction rs with
  | nil =>
    intro outer outer1 w h h1
    obtain ⟨a, rfl⟩ : ∃ a, outer = a + 1 := ⟨outer - 1, by omega⟩
    obtain ⟨b, rfl⟩ : ∃ b, outer1 = b + 1 := ⟨outer1 - 1, by omega⟩
    simp [sentinels, sweepLoop_records_nil]
  | cons r rs ih =>
    intro outer outer1 w h h1
    obtain ⟨a, rfl⟩ : ∃ a, outer = a + 1 := ⟨outer - 1, by omega⟩
    by_cases hs : r.Status = NoFile
    · have hf : sentinels (r :: rs) = r :: sentinels rs := by simp [sentinels, hs]
      rw [hf] at h1 ⊢
      obtain ⟨b, rfl⟩ : ∃ b, outer1 = b + 1 := ⟨outer1 - 1, by omega⟩
      rw [sweepLoop_records_sentinel _ _ _ _ _ _ _ _ hs,
        sweepLoop_records_sentinel _ _ _ _ _ _ _ _ hs]
      simp only [List.length_cons] at h h1
      split
      · exact ih a b _ (by omega) (by omega)
      · rfl
    · have hf : sentinels (r :: rs) = sentinels rs := by simp [sentinels, hs]
      rw [hf] at h1 ⊢
      rw [sweepLoop_records_skip _ _ _ _ _ _ _ _ hs]
      simp only [List.length_cons] at h
      exact ih a outer1 w (by omega) h1

end Sweep

section Adequacy

variable {σ : Type}

/-- The bound on the retry loop only matters when it is reached: a run that
stops for another reason is unchanged by a larger bound. -/
theorem removeLoop_more_fuel (unmarshal : String → Option ErrorStruct) (node : Node σ)
    (cfg : Config) (key : String) (fuel : Nat) :
    ∀ (err : Option GoError) (w : World σ),
      (removeLoop unmarshal node cfg key fuel err w).status ≠ .exhausted →
      removeLoop unmarshal node cfg key (fuel + 1) err w =
        removeLoop unmarshal node cfg key fuel err w := by
  induction fuel with
  | zero =>
    intro err w h
    cases err with
    | none => rw [removeLoop_none, removeLoop_none]
    | some e =>
      cases hp : HasPrefix e.Error "pinned" with
      | false => rw [removeLoop_not_pinned _ _ _ _ _ _ _ hp, removeLoop_not_pinned _ _ _ _ _ _ _ hp]
      | true =>
        rw [removeLoop_zero _ _ _ _ _ _ hp] at h
        exact absurd rfl h
  | succ n ih =>
    intro err w h
    cases err with
    | none => rw [removeLoop_none, removeLoop_none]
    | some e =>
      cases hp : HasPrefix e.Error "pinned" with
      | false => rw [removeLoop_not_pinned _ _ _ _ _ _ _ hp, removeLoop_not_pinned _ _ _ _ _ _ _ hp]
      | true =>
        cases hc : pinIdentifier e.Error with
        | none => rw [removeLoop_panic _ _ _ _ _ _ _ hp hc, removeLoop_panic _ _ _ _ _ _ _ hp hc]
        | some cid =>
          rw [removeLoop_step _ _ _ _ _ _ _ cid hp hc] at h ⊢
          rw [removeLoop_step _ _ _ _ _ _ _ cid hp hc]
          exact ih _ _ h

/-- The bound on the decode loop only matters when a bound is reached. -/
theorem sweepLoop_more_fuel {δ : Type} (dec : StreamDecoder δ)
    (unmarshal : String → Option ErrorStruct) (node : Node σ) (cfg : Config)
    (inner outer : Nat) :
    ∀ (d : δ) (w : World σ),
      (sweepLoop dec unmarshal node cfg inner outer d w).status ≠ .exhausted →
      sweepLoop dec unmarshal node cfg inner (outer + 1) d w =
        sweepLoop dec unmarshal node cfg inner outer d w := by
  induction outer with
  | zero =>
    intro d w h
    exact absurd rfl h
  | succ n ih =>
    intro d w h
    unfold sweepLoop at h ⊢
    rcases hm : dec.More d with ⟨b, d1⟩
    rw [hm] at h
    cases b with
    | false => rfl
    | true =>
      simp only at h ⊢
      rcases hd : dec.Decode d1 with ⟨res, d2⟩
      rw [hd] at h
      cases res with
      | error text =>
        simp only at h ⊢
        exact ih _ _ h
      | ok e =>
        simp only at h ⊢
        by_cases hs : e.Status = NoFile
        · simp only [hs, if_true] at h ⊢
          cases hst : (removeBlock unmarshal node cfg inner e.Key.Slash
              (w.log ("Removing reference from filestore: " ++ e.Key.Slash))).status with
          | finished =>
            rw [hst] at h
            simp only at h ⊢
            exact ih _ _ h
          | indexOutOfRange i l => rfl
          | exhausted => rfl
        · simp only [hs, if_false] at h ⊢
          exact ih _ _ h

end Adequacy

/-! ## Records that are not orphans -/

/-- C2. For every sequence of records delivered by the verify stream and
every node, the sweep ends in the same state (same calls in the same order,
same log, same status) as the sweep over the stream with all records of
status other than 11 removed; and a stream without any record of status 11
issues no call at all. -/
theorem nonsentinel_records_issue_no_call {σ : Type} (unmarshal : String → Option ErrorStruct)
    (node : Node σ) (cfg : Config) (inner outer outer1 : Nat) (rs : List FileStoreEntry)
    (w : World σ) (h : rs.length < outer) (h1 : (sentinels rs).length < outer1) :
    CleanFilestore recordStream unmarshal node cfg outer inner (.ok rs) w =
      CleanFilestore recordStream unmarshal node cfg outer1 inner (.ok (sentinels rs)) w ∧
    ((CleanFilestore recordStream unmarshal node cfg outer inner (.ok rs) w).world.requests =
      (CleanFilestore recordStream unmarshal node cfg outer1 inner
        (.ok (sentinels rs)) w).world.requests) ∧
    ((∀ r ∈ rs, r.Status ≠ NoFile) →
      (CleanFilestore recordStream unmarshal node cfg outer inner (.ok rs) w).world.calls =
        w.calls ∧
      (CleanFilestore recordStream unmarshal node cfg outer inner (.ok rs) w).status =
        .finished) := by
  have key : CleanFilestore recordStream unmarshal node cfg outer inner (.ok rs) w =
      CleanFilestore recordStream unmarshal node cfg outer1 inner (.ok (sentinels rs)) w := by
    unfold CleanFilestore
    simp only
    exact sweepLoop_records_sentinels unmarshal node cfg inner rs outer outer1 _ h h1
  refine ⟨key, by rw [key], ?_⟩
  intro hall
  have hnil : sentinels rs = [] := by
    simp only [sentinels, List.filter_eq_nil_iff, decide_eq_true_eq]
    exact hall
  rw [key, hnil]
  obtain ⟨b, rfl⟩ : ∃ b, outer1 = b + 1 := ⟨outer1 - 1, by omega⟩
  unfold CleanFilestore
  simp only [sweepLoop_records_nil]
  split <;> simp

section Sweep3

variable {σ : Type}

/-- The first `block/rm` call of a record of status 11 is among the calls of
the finished sweep. -/
theorem sweepLoop_records_first_call (unmarshal : String → Option ErrorStruct) (node : Node σ)
    (cfg : Config) (inner outer : Nat) (r : FileStoreEntry) (rs : List FileStoreEntry)
    (w : World σ) (h : r.Status = NoFile) :
    (⟨blockRm cfg r.Key.Slash,
        (doRequest unmarshal node cfg cfg.TimeoutTime ("block/rm?arg=" ++ r.Key.Slash)
          (w.log ("Removing reference from filestore: " ++ r.Key.Slash))).1.1,
        (doRequest unmarshal node cfg cfg.TimeoutTime ("block/rm?arg=" ++ r.Key.Slash)
          (w.log ("Removing reference from filestore: " ++ r.Key.Slash))).1.2⟩ : Call) ∈
      (sweepLoop recordStream unmarshal node cfg inner (outer + 1) (r :: rs) w).world.calls := by
  rw [sweepLoop_records_sentinel _ _ _ _ _ _ _ _ h]
  obtain ⟨cs, hcs⟩ := removeBlock_calls_prefix unmarshal node cfg inner r.Key.Slash
    (w.log ("Removing reference from filestore: " ++ r.Key.Slash))
  split
  · obtain ⟨cs1, hcs1⟩ := sweepLoop_calls_prefix recordStream unmarshal node cfg inner outer rs
      (removeBlock unmarshal node cfg inner r.Key.Slash
        (w.log ("Removing reference from filestore: " ++ r.Key.Slash))).world
    rw [hcs1, hcs]
    simp
  · simp only
    rw [hcs]
    simp

/-- The sweep over records when no `block/rm` call of the run fails with a
text that begins with `pinned`. -/
theorem sweepLoop_records_no_pin (unmarshal : String → Option ErrorStruct) (node : Node σ)
    (cfg : Config) (inner : Nat) (rs : List FileStoreEntry) :
    ∀ (outer : Nat) (w : World σ), rs.length < outer →
      (∀ c ∈ (sweepLoop recordStream unmarshal node cfg inner outer rs w).world.calls,
        (∃ k, c.req = blockRm cfg k) → c.isPinnedFailure = false) →
      (sweepLoop recordStream unmarshal node cfg inner outer rs w).status = .finished ∧
      (sweepLoop recordStream unmarshal node cfg inner outer rs w).world.requests =
        w.requests ++ (sentinels rs).map fun r => blockRm cfg r.Key.Slash := by
  induction rs with
  | nil =>
    intro outer w h _
    obtain ⟨a, rfl⟩ : ∃ a, outer = a + 1 := ⟨outer - 1, by omega⟩
    simp [sentinels, sweepLoop_records_nil]
  | cons r rs ih =>
    intro outer w h hno
    obtain ⟨a, rfl⟩ : ∃ a, outer = a + 1 := ⟨outer - 1, by omega⟩
    simp only [List.length_cons] at h
    by_cases hs : r.Status = NoFile
    · have hf : sentinels (r :: rs) = r :: sentinels rs := by simp [sentinels, hs]
      have hfirst := hno _ (sweepLoop_records_first_call unmarshal node cfg inner a r rs w hs)
        ⟨r.Key.Slash, rfl⟩
      have hloop : removeBlock unmarshal node cfg inner r.Key.Slash
          (w.log ("Removing reference from filestore: " ++ r.Key.Slash)) =
          ⟨.finished,
            (doRequest unmarshal node cfg cfg.TimeoutTime ("block/rm?arg=" ++ r.Key.Slash)
              (w.log ("Removing reference from filestore: " ++ r.Key.Slash))).1.2,
            (doRequest unmarshal node cfg cfg.TimeoutTime ("block/rm?arg=" ++ r.Key.Slash)
              (w.log ("Removing reference from filestore: " ++ r.Key.Slash))).2⟩ := by
        unfold removeBlock
        simp only
        cases he : (doRequest unmarshal node cfg cfg.TimeoutTime
            ("block/rm?arg=" ++ r.Key.Slash)
            (w.log ("Removing reference from filestore: " ++ r.Key.Slash))).1.2 with
        | none => rw [removeLoop_none]
        | some e =>
          have : HasPrefix e.Error "pinned" = false := by
            simpa [Call.isPinnedFailure, he] using hfirst
          rw [removeLoop_not_pinned _ _ _ _ _ _ _ this]
      rw [sweepLoop_records_sentinel _ _ _ _ _ _ _ _ hs, hloop] at hno ⊢
      simp only at hno ⊢
      obtain ⟨h1, h2⟩ := ih a _ (by omega) hno
      refine ⟨h1, ?_⟩
      rw [h2, doRequest_requests, hf]
      simp [blockRm]
    · have hf : sentinels (r :: rs) = sentinels rs := by simp [sentinels, hs]
      rw [sweepLoop_records_skip _ _ _ _ _ _ _ _ hs] at hno ⊢
      rw [hf]
      exact ih a w (by omega) hno

end Sweep3

/-! ## One call per orphan when no pin is in the way -/

/-- C3. For every sequence of records delivered by the verify stream: if no
`block/rm` call of the run returns an error whose text begins with `pinned`,
the sweep runs to its end and the requests it issues are exactly, in stream
order, one `block/rm?arg=<key>` with the configured timeout for each record
of status 11, whether those calls succeed or fail. -/
theorem one_block_rm_per_sentinel {σ : Type} (unmarshal : String → Option ErrorStruct)
    (node : Node σ) (cfg : Config) (inner outer : Nat) (rs : List FileStoreEntry) (s : σ)
    (h : rs.length < outer)
    (hno : ∀ c ∈ (CleanFilestore recordStream unmarshal node cfg outer inner (.ok rs)
        (World.init s)).world.calls,
      (∃ k, c.req = blockRm cfg k) → c.isPinnedFailure = false) :
    (CleanFilestore recordStream unmarshal node cfg outer inner (.ok rs)
      (World.init s)).status = .finished ∧
    (CleanFilestore recordStream unmarshal node cfg outer inner (.ok rs)
      (World.init s)).world.requests =
        (sentinels rs).map fun r => blockRm cfg r.Key.Slash := by
  unfold CleanFilestore at hno ⊢
  simp only at hno ⊢
  obtain ⟨h1, h2⟩ := sweepLoop_records_no_pin unmarshal node cfg inner rs outer _ h hno
  refine ⟨h1, ?_⟩
  rw [h2]
  split <;> simp [World.requests, World.init]

/-- C3 at the records (11,A), (0,B), (11,C), with a node that refuses the
first removal with a text other than `pinned...` and accepts the second: the
calls are `block/rm?arg=A` then `block/rm?arg=C`. -/
theorem one_block_rm_per_sentinel_witness :
    ([⟨11, ⟨"A"⟩⟩, ⟨0, ⟨"B"⟩⟩, ⟨11, ⟨"C"⟩⟩] : List FileStoreEntry).length < 4 ∧
    (∀ c ∈ (CleanFilestore recordStream Json.Unmarshal scripted defaultConfig 4 0
        (.ok [⟨11, ⟨"A"⟩⟩, ⟨0, ⟨"B"⟩⟩, ⟨11, ⟨"C"⟩⟩])
        (World.init [.body "\x7b\"Message\":\"blockstore: block not found\"\x7d",
          .body "\x7b\"Hash\":\"C\"\x7d"])).world.calls,
      c.isPinnedFailure = false) ∧
    (CleanFilestore recordStream Json.Unmarshal scripted defaultConfig 4 0
        (.ok [⟨11, ⟨"A"⟩⟩, ⟨0, ⟨"B"⟩⟩, ⟨11, ⟨"C"⟩⟩])
        (World.init [.body "\x7b\"Message\":\"blockstore: block not found\"\x7d",
          .body "\x7b\"Hash\":\"C\"\x7d"])).status = .finished ∧
    (CleanFilestore recordStream Json.Unmarshal scripted defaultConfig 4 0
        (.ok [⟨11, ⟨"A"⟩⟩, ⟨0, ⟨"B"⟩⟩, ⟨11, ⟨"C"⟩⟩])
        (World.init [.body "\x7b\"Message\":\"blockstore: block not found\"\x7d",
          .body "\x7b\"Hash\":\"C\"\x7d"])).world.requests =
      [⟨"http://127.0.0.1:5001/api/v0/block/rm?arg=A", some 30000000000⟩,
        ⟨"http://127.0.0.1:5001/api/v0/block/rm?arg=C", some 30000000000⟩] := by
  have hno : ∀ c ∈ (CleanFilestore recordStream Json.Unmarshal scripted defaultConfig 4 0
        (.ok [⟨11, ⟨"A"⟩⟩, ⟨0, ⟨"B"⟩⟩, ⟨11, ⟨"C"⟩⟩])
        (World.init [.body "\x7b\"Message\":\"blockstore: block not found\"\x7d",
          .body "\x7b\"Hash\":\"C\"\x7d"])).world.calls,
      c.isPinnedFailure = false := by decide
  have h := one_block_rm_per_sentinel Json.Unmarshal scripted defaultConfig 0 4
    [⟨11, ⟨"A"⟩⟩, ⟨0, ⟨"B"⟩⟩, ⟨11, ⟨"C"⟩⟩]
    [.body "\x7b\"Message\":\"blockstore: block not found\"\x7d", .body "\x7b\"Hash\":\"C\"\x7d"]
    (by decide) (fun c hc _ => hno c hc)
  exact ⟨by decide, hno, h.1, h.2.trans (by decide)⟩

section Stuck

variable {σ : Type}

theorem retries_length (cfg : Config) (k p : String) (n : Nat) :
    (retries cfg k p n).length = 2 * n := by
  induction n with
  | zero => rfl
  | succ n ih => simp [retries, ih]; omega

/-- One round of the loop is the body followed by the whole `for` statement
with one round less. -/
theorem removeLoop_step_removeBlock (unmarshal : String → Option ErrorStruct) (node : Node σ)
    (cfg : Config) (key : String) (fuel : Nat) (err : GoError) (w : World σ) (cid : String)
    (h : HasPrefix err.Error "pinned" = true) (hp : pinIdentifier err.Error = some cid) :
    removeLoop unmarshal node cfg key (fuel + 1) (some err) w =
      removeBlock unmarshal node cfg fuel key (unpin unmarshal node cfg cid w) := by
  rw [removeLoop_step _ _ _ _ _ _ _ cid h hp]
  rfl

/-- The retry loop when every `block/rm` call of the run fails with the same
text `e`, which begins with `pinned` and has `p` at index 2. -/
theorem removeLoop_stuck (unmarshal : String → Option ErrorStruct) (node : Node σ)
    (cfg : Config) (k e p : String) (hpinned : HasPrefix e "pinned" = true)
    (htoken : pinIdentifier e = some p) (n : Nat) :
    ∀ (err : GoError) (w : World σ), err.Error = e →
      (∀ c ∈ (removeLoop unmarshal node cfg k n (some err) w).world.calls,
        c.req = blockRm cfg k → ∃ err1, c.err = some err1 ∧ err1.Error = e) →
      (removeLoop unmarshal node cfg k n (some err) w).status = .exhausted ∧
      (removeLoop unmarshal node cfg k n (some err) w).world.requests =
        w.requests ++ retries cfg k p n := by
  induction n with
  | zero =>
    intro err w he _
    rw [removeLoop_zero _ _ _ _ _ _ (by rw [he]; exact hpinned)]
    simp [retries]
  | succ n ih =>
    intro err w he hall
    have h1 : HasPrefix err.Error "pinned" = true := by rw [he]; exact hpinned
    have h2 : pinIdentifier err.Error = some p := by rw [he]; exact htoken
    rw [removeLoop_step _ _ _ _ _ _ _ p h1 h2] at hall ⊢
    obtain ⟨cs, hcs⟩ := removeLoop_calls_prefix unmarshal node cfg k n
      (doRequest unmarshal node cfg cfg.TimeoutTime ("block/rm?arg=" ++ k)
        (unpin unmarshal node cfg p w)).1.2
      (doRequest unmarshal node cfg cfg.TimeoutTime ("block/rm?arg=" ++ k)
        (unpin unmarshal node cfg p w)).2
    obtain ⟨err1, h3, h4⟩ := hall
      ⟨blockRm cfg k,
        (doRequest unmarshal node cfg cfg.TimeoutTime ("block/rm?arg=" ++ k)
          (unpin unmarshal node cfg p w)).1.1,
        (doRequest unmarshal node cfg cfg.TimeoutTime ("block/rm?arg=" ++ k)
          (unpin unmarshal node cfg p w)).1.2⟩
      (by rw [hcs, doRequest_calls]; simp [blockRm]) rfl
    simp only at h3
    rw [h3] at hall ⊢
    obtain ⟨i1, i2⟩ := ih err1 _ h4 hall
    refine ⟨i1, ?_⟩
    rw [i2, doRequest_requests, unpin_requests]
    simp [retries, blockRm]

/-- The calls made for a record of status 11 are among the calls of the sweep. -/
theorem sweepLoop_records_calls_of_head (unmarshal : String → Option ErrorStruct)
    (node : Node σ) (cfg : Config) (inner outer : Nat) (r : FileStoreEntry)
    (rs : List FileStoreEntry) (w : World σ) (h : r.Status = NoFile) :
    ∀ c ∈ (removeBlock unmarshal node cfg inner r.Key.Slash
        (w.log ("Removing reference from filestore: " ++ r.Key.Slash))).world.calls,
      c ∈ (sweepLoop recordStream unmarshal node cfg inner (outer + 1) (r :: rs) w).world.calls := by
  intro c hc
  rw [sweepLoop_records_sentinel _ _ _ _ _ _ _ _ h]
  split
  · obtain ⟨cs1, hcs1⟩ := sweepLoop_calls_prefix recordStream unmarshal node cfg inner outer rs
      (removeBlock unmarshal node cfg inner r.Key.Slash
        (w.log ("Removing reference from filestore: " ++ r.Key.Slash))).world
    rw [hcs1]
    exact List.mem_append_left _ hc
  · exact hc

end Stuck

/-! ## The retry loop has no bound -/

/-- C10. Let the stream deliver a record of status 11 with key `k`, followed
by any records, and let `e` be a text that begins with `pinned` and has the
token `p` at index 2. If every `block/rm?arg=k` call of the run bounded by
`n` rounds of the retry loop fails with text `e`, then that run does not reach
the end of the loop within `n` rounds: it stops with status `exhausted`, and
its requests are `block/rm?arg=k` followed by `n` times `pin/rm?arg=p`,
`block/rm?arg=k`; these are `2 * n + 1` requests, more than `n`, and none of
them belongs to a later record. This holds for every `n`. -/
theorem unremovable_pin_loops_forever {σ : Type} (unmarshal : String → Option ErrorStruct)
    (node : Node σ) (cfg : Config) (k e p : String) (rest : List FileStoreEntry) (s : σ)
    (outer n : Nat) (hpinned : HasPrefix e "pinned" = true)
    (htoken : pinIdentifier e = some p)
    (hfail : ∀ c ∈ (CleanFilestore recordStream unmarshal node cfg (outer + 1) n
        (.ok (⟨NoFile, ⟨k⟩⟩ :: rest)) (World.init s)).world.calls,
      c.req = blockRm cfg k → ∃ err, c.err = some err ∧ err.Error = e) :
    (CleanFilestore recordStream unmarshal node cfg (outer + 1) n
      (.ok (⟨NoFile, ⟨k⟩⟩ :: rest)) (World.init s)).status = .exhausted ∧
    (CleanFilestore recordStream unmarshal node cfg (outer + 1) n
      (.ok (⟨NoFile, ⟨k⟩⟩ :: rest)) (World.init s)).world.requests =
        blockRm cfg k :: retries cfg k p n ∧
    n < (CleanFilestore recordStream unmarshal node cfg (outer + 1) n
      (.ok (⟨NoFile, ⟨k⟩⟩ :: rest)) (World.init s)).world.requests.length := by
  unfold CleanFilestore at hfail ⊢
  simp only at hfail ⊢
  generalize hw0 : (if cfg.Verbose = true then
      (World.init s).log "Removing blocks that point to a file that doesn\x27t exist from filestore..."
    else World.init s) = w0 at hfail ⊢
  have hreq0 : w0.requests = [] := by
    rw [← hw0]
    split <;> rfl
  have hsub := sweepLoop_records_calls_of_head unmarshal node cfg n outer ⟨NoFile, ⟨k⟩⟩ rest w0 rfl
  simp only at hsub
  have hfirst := sweepLoop_records_first_call unmarshal node cfg n outer ⟨NoFile, ⟨k⟩⟩ rest w0 rfl
  obtain ⟨err0, h0, h1⟩ := hfail _ hfirst rfl
  simp only at h0
  have hb : removeBlock unmarshal node cfg n k
      (w0.log ("Removing reference from filestore: " ++ k)) =
      removeLoop unmarshal node cfg k n (some err0)
        (doRequest unmarshal node cfg cfg.TimeoutTime ("block/rm?arg=" ++ k)
          (w0.log ("Removing reference from filestore: " ++ k))).2 := by
    unfold removeBlock
    simp only
    rw [h0]
  rw [hb] at hsub
  obtain ⟨i1, i2⟩ := removeLoop_stuck unmarshal node cfg k e p hpinned htoken n err0 _ h1
    (fun c hc hreq => hfail c (hsub c hc) hreq)
  have hfinal : sweepLoop recordStream unmarshal node cfg n (outer + 1)
      (⟨NoFile, ⟨k⟩⟩ :: rest) w0 =
      ⟨.exhausted, (removeLoop unmarshal node cfg k n (some err0)
        (doRequest unmarshal node cfg cfg.TimeoutTime ("block/rm?arg=" ++ k)
          (w0.log ("Removing reference from filestore: " ++ k))).2).world⟩ := by
    rw [sweepLoop_records_sentinel _ _ _ _ _ _ _ _ rfl]
    simp only
    rw [hb, i1]
  have hreqs : (sweepLoop recordStream unmarshal node cfg n (outer + 1)
      (⟨NoFile, ⟨k⟩⟩ :: rest) w0).world.requests = blockRm cfg k :: retries cfg k p n := by
    rw [hfinal]
    simp only
    rw [i2, doRequest_requests, log_requests, hreq0]
    simp [blockRm]
  refine ⟨by rw [hfinal], hreqs, ?_⟩
  rw [hreqs, List.length_cons, retries_length]
  omega

section Store

variable {σ : Type}

theorem hasPrefixChars_append (a b c : List Char) :
    hasPrefixChars (a ++ b) (a ++ c) = hasPrefixChars b c := by
  induction a with
  | nil => rfl
  | cons x xs ih => simp [hasPrefixChars, ih]

theorem hasPrefixChars_append_self (a b : List Char) : hasPrefixChars (a ++ b) a = true := by
  induction a with
  | nil => cases b <;> rfl
  | cons x xs ih => simp [hasPrefixChars, ih]

theorem isBlockRm_blockRm (cfg : Config) (k : String) :
    (blockRm cfg k).isBlockRm cfg = true := by
  simp only [Request.isBlockRm, blockRm, requestFor, HasPrefix, String.data_append,
    List.append_assoc, hasPrefixChars_append]
  exact hasPrefixChars_append_self _ _

theorem isBlockRm_pinRm (cfg : Config) (p : String) :
    (pinRm cfg p).isBlockRm cfg = false := by
  simp only [Request.isBlockRm, pinRm, requestFor, HasPrefix, String.data_append,
    List.append_assoc, hasPrefixChars_append]
  rfl

theorem isPinRm_pinRm (cfg : Config) (p : String) :
    (pinRm cfg p).isPinRm cfg = true := by
  simp only [Request.isPinRm, pinRm, requestFor, HasPrefix, String.data_append,
    List.append_assoc, hasPrefixChars_append]
  exact hasPrefixChars_append_self _ _

theorem isPinRm_blockRm (cfg : Config) (k : String) :
    (blockRm cfg k).isPinRm cfg = false := by
  simp only [Request.isPinRm, blockRm, requestFor, HasPrefix, String.data_append,
    List.append_assoc, hasPrefixChars_append]
  rfl

theorem unwinding_counts (cfg : Config) (k : String) (ps : List String) :
    (unwinding cfg k ps).countP (Request.isPinRm cfg) = ps.length ∧
    (unwinding cfg k ps).countP (Request.isBlockRm cfg) = ps.length + 1 := by
  induction ps with
  | nil => simp [unwinding, isPinRm_blockRm, isBlockRm_blockRm]
  | cons p ps ih =>
    simp [unwinding, List.countP_cons, isPinRm_blockRm, isBlockRm_blockRm, isPinRm_pinRm,
      isBlockRm_pinRm, ih.1, ih.2]

/-- The retry loop against a store whose pins on `k` go away one by one. -/
theorem removeBlock_unwinds (unmarshal : String → Option ErrorStruct) (node : Node σ)
    (cfg : Config) (k : String) (pins : σ → Finset String)
    (hfail : ∀ w : World σ, (pins w.node).Nonempty →
      ∃ err p, (doRequest unmarshal node cfg cfg.TimeoutTime ("block/rm?arg=" ++ k) w).1.2 =
          some err ∧
        HasPrefix err.Error "pinned" = true ∧ pinIdentifier err.Error = some p ∧
        p ∈ pins w.node ∧
        pins (doRequest unmarshal node cfg cfg.TimeoutTime ("block/rm?arg=" ++ k) w).2.node =
          pins w.node)
    (hok : ∀ w : World σ, pins w.node = ∅ →
      (doRequest unmarshal node cfg cfg.TimeoutTime ("block/rm?arg=" ++ k) w).1.2 = none)
    (hunpin : ∀ (w : World σ) (p : String), p ∈ pins w.node →
      pins (doRequest unmarshal node cfg 0 ("pin/rm?arg=" ++ p) w).2.node =
        (pins w.node).erase p)
    (n : Nat) :
    ∀ (fuel : Nat) (w : World σ), (pins w.node).card = n → n ≤ fuel →
      (removeBlock unmarshal node cfg fuel k w).status = .finished ∧
      (removeBlock unmarshal node cfg fuel k w).err = none ∧
      ∃ ps : List String, ps.length = n ∧
        (removeBlock unmarshal node cfg fuel k w).world.requests =
          w.requests ++ unwinding cfg k ps := by
  induction n with
  | zero =>
    intro fuel w hcard _
    have hempty : pins w.node = ∅ := Finset.card_eq_zero.mp hcard
    have h0 := hok w hempty
    unfold removeBlock
    simp only
    rw [h0, removeLoop_none]
    exact ⟨rfl, rfl, [], rfl, by rw [doRequest_requests]; rfl⟩
  | succ n ih =>
    intro fuel w hcard hfuel
    obtain ⟨f, rfl⟩ : ∃ f, fuel = f + 1 := ⟨fuel - 1, by omega⟩
    have hne : (pins w.node).Nonempty := Finset.card_pos.mp (by omega)
    obtain ⟨err, p, h1, h2, h3, h4, h5⟩ := hfail w hne
    have hb : removeBlock unmarshal node cfg (f + 1) k w =
        removeBlock unmarshal node cfg f k (unpin unmarshal node cfg p
          (doRequest unmarshal node cfg cfg.TimeoutTime ("block/rm?arg=" ++ k) w).2) := by
      conv_lhs => unfold removeBlock
      simp only
      rw [h1, removeLoop_step_removeBlock _ _ _ _ _ _ _ p h2 h3]
    have hpins : pins (unpin unmarshal node cfg p
        (doRequest unmarshal node cfg cfg.TimeoutTime ("block/rm?arg=" ++ k) w).2).node =
        (pins w.node).erase p := by
      have := hunpin (doRequest unmarshal node cfg cfg.TimeoutTime ("block/rm?arg=" ++ k) w).2 p
        (by rw [h5]; exact h4)
      rw [doRequest_node, h5] at this
      rw [unpin_node]
      exact this
    obtain ⟨i1, i2, ps, i3, i4⟩ := ih f _
      (by rw [hpins, Finset.card_erase_of_mem h4]; omega) (by omega)
    rw [hb]
    refine ⟨i1, i2, p :: ps, by simp [i3], ?_⟩
    rw [i4, unpin_requests, doRequest_requests]
    simp [unwinding, blockRm]

end Store

/-! ## Termination of the retry loop when each unpin removes a pin -/

/-- C9. Let `pins` give the set of pins that protect key `k` in each state of
the node, and suppose that (a) while that set is not empty, `block/rm?arg=k`
fails with a text that begins with `pinned` and whose token at index 2 is one
of the remaining pins, and leaves the set as it is, (b) once the set is empty,
`block/rm?arg=k` succeeds, and (c) `pin/rm` of a remaining pin removes it from
the set. Then from a state with `n` distinct pins the loop for `k`, given at
least `n` rounds, ends without error after exactly `n` `pin/rm` calls and
`n + 1` `block/rm` calls: `block/rm?arg=k`, then `n` times a `pin/rm` followed
by `block/rm?arg=k`. -/
theorem retry_loop_terminates {σ : Type} (unmarshal : String → Option ErrorStruct)
    (node : Node σ) (cfg : Config) (k : String) (pins : σ → Finset String)
    (hfail : ∀ w : World σ, (pins w.node).Nonempty →
      ∃ err p, (doRequest unmarshal node cfg cfg.TimeoutTime ("block/rm?arg=" ++ k) w).1.2 =
          some err ∧
        HasPrefix err.Error "pinned" = true ∧ pinIdentifier err.Error = some p ∧
        p ∈ pins w.node ∧
        pins (doRequest unmarshal node cfg cfg.TimeoutTime ("block/rm?arg=" ++ k) w).2.node =
          pins w.node)
    (hok : ∀ w : World σ, pins w.node = ∅ →
      (doRequest unmarshal node cfg cfg.TimeoutTime ("block/rm?arg=" ++ k) w).1.2 = none)
    (hunpin : ∀ (w : World σ) (p : String), p ∈ pins w.node →
      pins (doRequest unmarshal node cfg 0 ("pin/rm?arg=" ++ p) w).2.node =
        (pins w.node).erase p)
    (n fuel : Nat) (s : σ) (hn : (pins s).card = n) (hfuel : n ≤ fuel) :
    (removeBlock unmarshal node cfg fuel k (World.init s)).status = .finished ∧
    (removeBlock unmarshal node cfg fuel k (World.init s)).err = none ∧
    (removeBlock unmarshal node cfg fuel k (World.init s)).world.requests.countP
      (Request.isPinRm cfg) = n ∧
    (removeBlock unmarshal node cfg fuel k (World.init s)).world.requests.countP
      (Request.isBlockRm cfg) = n + 1 ∧
    ∃ ps : List String, ps.length = n ∧
      (removeBlock unmarshal node cfg fuel k (World.init s)).world.requests =
        unwinding cfg k ps := by
  obtain ⟨i1, i2, ps, i3, i4⟩ :=
    removeBlock_unwinds unmarshal node cfg k pins hfail hok hunpin n fuel (World.init s) hn hfuel
  have i5 : (removeBlock unmarshal node cfg fuel k (World.init s)).world.requests =
      unwinding cfg k ps := by
    rw [i4]
    rfl
  have hc := unwinding_counts cfg k ps
  refine ⟨i1, i2, ?_, ?_, ps, i3, i5⟩
  · rw [i5, hc.1, i3]
  · rw [i5, hc.2, i3]

section StoreFacts

variable {σ : Type}

theorem doRequest_of_error_body (unmarshal : String → Option ErrorStruct) (node : Node σ)
    (cfg : Config) (timeout : Int) (cmd : String) (w : World σ) (body : String) (s : σ)
    (es : ErrorStruct) (h : node w.node (requestFor cfg timeout cmd) = (.body body, s))
    (hu : unmarshal body = some es) (he : es.Error ≠ "") :
    (doRequest unmarshal node cfg timeout cmd w).1.2 = some (.api es) ∧
    (doRequest unmarshal node cfg timeout cmd w).2.node = s := by
  rw [doRequest_of_body unmarshal node cfg timeout cmd w body s h, doRequest_node, h, hu]
  simp [he]

theorem doRequest_of_plain_body (unmarshal : String → Option ErrorStruct) (node : Node σ)
    (cfg : Config) (timeout : Int) (cmd : String) (w : World σ) (body : String) (s : σ)
    (es : ErrorStruct) (h : node w.node (requestFor cfg timeout cmd) = (.body body, s))
    (hu : unmarshal body = some es) (he : es.Error = "") :
    (doRequest unmarshal node cfg timeout cmd w).1.2 = none ∧
    (doRequest unmarshal node cfg timeout cmd w).2.node = s := by
  rw [doRequest_of_body unmarshal node cfg timeout cmd w body s h, doRequest_node, h, hu]
  simp [he]

end StoreFacts

theorem twoPinStore_blockRm (s : Bool × Bool) :
    twoPinStore s (requestFor defaultConfig defaultConfig.TimeoutTime ("block/rm?arg=" ++ "A")) =
      if s.1 then (.body "\x7b\"Message\":\"pinned via QmA\"\x7d", s)
      else if s.2 then (.body "\x7b\"Message\":\"pinned via QmB\"\x7d", s)
      else (.body "\x7b\"Hash\":\"A\"\x7d", s) := by
  unfold twoPinStore
  exact if_pos rfl

theorem twoPinStore_refuses (w : World (Bool × Bool)) (h : (twoPins w.node).Nonempty) :
    ∃ err p, (doRequest Json.Unmarshal twoPinStore defaultConfig defaultConfig.TimeoutTime
          ("block/rm?arg=" ++ "A") w).1.2 = some err ∧
      HasPrefix err.Error "pinned" = true ∧ pinIdentifier err.Error = some p ∧
      p ∈ twoPins w.node ∧
      twoPins (doRequest Json.Unmarshal twoPinStore defaultConfig defaultConfig.TimeoutTime
          ("block/rm?arg=" ++ "A") w).2.node = twoPins w.node := by
  rcases w with ⟨⟨a, b⟩, calls, logs⟩
  cases a with
  | true =>
    obtain ⟨h1, h2⟩ := doRequest_of_error_body Json.Unmarshal twoPinStore defaultConfig
      defaultConfig.TimeoutTime ("block/rm?arg=" ++ "A") ⟨(true, b), calls, logs⟩
      "\x7b\"Message\":\"pinned via QmA\"\x7d" (true, b) ⟨"pinned via QmA", "", 0, ""⟩
      (by rw [twoPinStore_blockRm]; rfl) (by decide) (by decide)
    refine ⟨_, "QmA", h1, by decide, by decide, ?_, by rw [h2]⟩
    show "QmA" ∈ twoPins (true, b)
    cases b <;> decide
  | false =>
    cases b with
    | true =>
      obtain ⟨h1, h2⟩ := doRequest_of_error_body Json.Unmarshal twoPinStore defaultConfig
        defaultConfig.TimeoutTime ("block/rm?arg=" ++ "A") ⟨(false, true), calls, logs⟩
        "\x7b\"Message\":\"pinned via QmB\"\x7d" (false, true) ⟨"pinned via QmB", "", 0, ""⟩
        (by rw [twoPinStore_blockRm]; rfl) (by decide) (by decide)
      refine ⟨_, "QmB", h1, by decide, by decide, ?_, by rw [h2]⟩
      show "QmB" ∈ twoPins (false, true)
      decide
    | false =>
      refine absurd h ?_
      show ¬ (twoPins (false, false)).Nonempty
      decide

theorem twoPinStore_accepts (w : World (Bool × Bool)) (h : twoPins w.node = ∅) :
    (doRequest Json.Unmarshal twoPinStore defaultConfig defaultConfig.TimeoutTime
      ("block/rm?arg=" ++ "A") w).1.2 = none := by
  rcases w with ⟨⟨a, b⟩, calls, logs⟩
  have hab : a = false ∧ b = false := by
    change twoPins (a, b) = ∅ at h
    revert h
    cases a <;> cases b <;> decide
  obtain ⟨rfl, rfl⟩ := hab
  exact (doRequest_of_plain_body Json.Unmarshal twoPinStore defaultConfig
    defaultConfig.TimeoutTime ("block/rm?arg=" ++ "A") ⟨(false, false), calls, logs⟩
    "\x7b\"Hash\":\"A\"\x7d" (false, false) ⟨"", "", 0, ""⟩
    (by rw [twoPinStore_blockRm]; rfl) (by decide) (by decide)).1

theorem twoPinStore_unpins (w : World (Bool × Bool)) (p : String) (h : p ∈ twoPins w.node) :
    twoPins (doRequest Json.Unmarshal twoPinStore defaultConfig 0 ("pin/rm?arg=" ++ p)
      w).2.node = (twoPins w.node).erase p := by
  rcases w with ⟨⟨a, b⟩, calls, logs⟩
  rw [doRequest_node]
  show twoPins (twoPinStore (a, b) (requestFor defaultConfig 0 ("pin/rm?arg=" ++ p))).2 =
    (twoPins (a, b)).erase p
  have hp : p = "QmA" ∧ a = true ∨ p = "QmB" ∧ b = true := by
    change p ∈ twoPins (a, b) at h
    cases a <;> cases b <;> simp [twoPins] at h <;> simp [h]
  rcases hp with ⟨rfl, rfl⟩ | ⟨rfl, rfl⟩
  · cases b <;> decide
  · cases a <;> decide

/-- C9 on a node where block `A` is protected by the two pins `QmA` and
`QmB`: the loop ends without error after 2 `pin/rm` and 3 `block/rm` calls. -/
theorem retry_loop_terminates_witness :
    (twoPins (true, true)).card = 2 ∧
    (removeBlock Json.Unmarshal twoPinStore defaultConfig 2 "A"
      (World.init (true, true))).status = .finished ∧
    (removeBlock Json.Unmarshal twoPinStore defaultConfig 2 "A"
      (World.init (true, true))).err = none ∧
    (removeBlock Json.Unmarshal twoPinStore defaultConfig 2 "A"
      (World.init (true, true))).world.requests.countP (Request.isPinRm defaultConfig) = 2 ∧
    (removeBlock Json.Unmarshal twoPinStore defaultConfig 2 "A"
      (World.init (true, true))).world.requests.countP (Request.isBlockRm defaultConfig) = 3 := by
  have h := retry_loop_terminates Json.Unmarshal twoPinStore defaultConfig "A" twoPins
    twoPinStore_refuses twoPinStore_accepts twoPinStore_unpins 2 2 (true, true) (by decide)
    (le_refl 2)
  exact ⟨by decide, h.1, h.2.1, h.2.2.1, h.2.2.2.1⟩

section Stream

variable {σ : Type}

/-- A decoder that keeps reporting input and keeps failing on it makes the
sweep log the failure once per round, without end. -/
theorem sweepLoop_stuck_decoder {δ : Type} (dec : StreamDecoder δ)
    (unmarshal : String → Option ErrorStruct) (node : Node σ) (cfg : Config) (inner : Nat)
    (d : δ) (text : String) (hm : dec.More d = (true, d)) (hd : dec.Decode d = (.error text, d))
    (outer : Nat) :
    ∀ w : World σ, sweepLoop dec unmarshal node cfg inner outer d w =
      ⟨.exhausted, ⟨w.node, w.calls,
        w.logs ++ List.replicate outer ("Error decoding fsEntry stream: " ++ text)⟩⟩ := by
  induction outer with
  | zero =>
    intro w
    simp [sweepLoop]
  | succ n ih =>
    intro w
    unfold sweepLoop
    simp only [hm, hd]
    rw [ih]
    simp [World.log, List.replicate_succ]

end Stream

/-! ## A malformed fragment in the verify stream -/

/-- C8 does not hold of the code. The stream is the malformed fragment
`{"Status":}` followed by the valid record `{"Status":11,"Key":{"/":"A"}}`.
(1) Whatever the node and the configuration, and however many rounds the
decode loop is given, the sweep never gets past the fragment: every round
logs the same decoding error, no call is issued for the record that follows,
and the loop does not end. (2) When the fragment is a lone `}`, the loop ends
at once and the record that follows is not read either. (3) The same record
alone in the stream is read and its block removed. -/
theorem malformed_fragment_blocks_the_stream {σ : Type}
    (unmarshal : String → Option ErrorStruct) (node : Node σ) (cfg : Config)
    (render : Json.DecodeError → String) (inner outer : Nat) (s : σ) :
    ((CleanFilestore (jsonStream render) unmarshal node cfg outer inner
        (.ok (Json.NewDecoder
          "\x7b\"Status\":\x7d\x7b\"Status\":11,\"Key\":\x7b\"/\":\"A\"\x7d\x7d"))
        (World.init s)).status = .exhausted ∧
      (CleanFilestore (jsonStream render) unmarshal node cfg outer inner
        (.ok (Json.NewDecoder
          "\x7b\"Status\":\x7d\x7b\"Status\":11,\"Key\":\x7b\"/\":\"A\"\x7d\x7d"))
        (World.init s)).world.calls = [] ∧
      (CleanFilestore (jsonStream render) unmarshal node cfg outer inner
        (.ok (Json.NewDecoder
          "\x7b\"Status\":\x7d\x7b\"Status\":11,\"Key\":\x7b\"/\":\"A\"\x7d\x7d"))
        (World.init s)).world.logs =
        (if cfg.Verbose then
          ["Removing blocks that point to a file that doesn\x27t exist from filestore..."]
        else []) ++
        List.replicate outer
          ("Error decoding fsEntry stream: " ++ render (.invalidCharacter '}'))) ∧
    ((CleanFilestore (jsonStream render) unmarshal node cfg (outer + 1) inner
        (.ok (Json.NewDecoder "\x7d\x7b\"Status\":11,\"Key\":\x7b\"/\":\"A\"\x7d\x7d"))
        (World.init s)).status = .finished ∧
      (CleanFilestore (jsonStream render) unmarshal node cfg (outer + 1) inner
        (.ok (Json.NewDecoder "\x7d\x7b\"Status\":11,\"Key\":\x7b\"/\":\"A\"\x7d\x7d"))
        (World.init s)).world.calls = []) ∧
    ((CleanFilestore (jsonStream render) unmarshal node cfg (outer + 2) inner
        (.ok (Json.NewDecoder "\x7b\"Status\":11,\"Key\":\x7b\"/\":\"A\"\x7d\x7d"))
        (World.init s)).world.requests.head? = some (blockRm cfg "A")) := by
  generalize hw0 : (if cfg.Verbose = true then
      (World.init s).log "Removing blocks that point to a file that doesn\x27t exist from filestore..."
    else World.init s) = w0
  have hcalls0 : w0.calls = [] := by
    rw [← hw0]
    split <;> rfl
  have hlogs0 : w0.logs = if cfg.Verbose then
      ["Removing blocks that point to a file that doesn\x27t exist from filestore..."]
    else [] := by
    rw [← hw0]
    split <;> rfl
  refine ⟨?_, ?_, ?_⟩
  · have hrun : CleanFilestore (jsonStream render) unmarshal node cfg outer inner
        (.ok (Json.NewDecoder
          "\x7b\"Status\":\x7d\x7b\"Status\":11,\"Key\":\x7b\"/\":\"A\"\x7d\x7d"))
        (World.init s) =
        ⟨.exhausted, ⟨w0.node, w0.calls, w0.logs ++ List.replicate outer
          ("Error decoding fsEntry stream: " ++ render (.invalidCharacter '}'))⟩⟩ := by
      unfold CleanFilestore
      simp only
      rw [hw0]
      cases outer with
      | zero => simp [sweepLoop]
      | succ n =>
        have hm0 : (jsonStream render).More (Json.NewDecoder
            "\x7b\"Status\":\x7d\x7b\"Status\":11,\"Key\":\x7b\"/\":\"A\"\x7d\x7d") =
            (true, Json.NewDecoder
              "\x7b\"Status\":\x7d\x7b\"Status\":11,\"Key\":\x7b\"/\":\"A\"\x7d\x7d") := by
          rfl
        have hd0 : (jsonStream render).Decode (Json.NewDecoder
            "\x7b\"Status\":\x7d\x7b\"Status\":11,\"Key\":\x7b\"/\":\"A\"\x7d\x7d") =
            (.error (render (.invalidCharacter '}')),
              ⟨"\x7b\"Status\":\x7d\x7b\"Status\":11,\"Key\":\x7b\"/\":\"A\"\x7d\x7d".data,
                some (.invalidCharacter '}')⟩) := by
          rfl
        have hm1 : (jsonStream render).More
            ⟨"\x7b\"Status\":\x7d\x7b\"Status\":11,\"Key\":\x7b\"/\":\"A\"\x7d\x7d".data,
              some (.invalidCharacter '}')⟩ =
            (true,
              ⟨"\x7b\"Status\":\x7d\x7b\"Status\":11,\"Key\":\x7b\"/\":\"A\"\x7d\x7d".data,
                some (.invalidCharacter '}')⟩) := by
          rfl
        have hd1 : (jsonStream render).Decode
            ⟨"\x7b\"Status\":\x7d\x7b\"Status\":11,\"Key\":\x7b\"/\":\"A\"\x7d\x7d".data,
              some (.invalidCharacter '}')⟩ =
            (.error (render (.invalidCharacter '}')),
              ⟨"\x7b\"Status\":\x7d\x7b\"Status\":11,\"Key\":\x7b\"/\":\"A\"\x7d\x7d".data,
                some (.invalidCharacter '}')⟩) := by
          rfl
        unfold sweepLoop
        simp only [hm0, hd0]
        rw [sweepLoop_stuck_decoder (jsonStream render) unmarshal node cfg inner _ _ hm1 hd1]
        simp [World.log, List.replicate_succ]
    rw [hrun]
    exact ⟨rfl, hcalls0, by rw [hlogs0]⟩
  · have hm0 : (jsonStream render).More (Json.NewDecoder
        "\x7d\x7b\"Status\":11,\"Key\":\x7b\"/\":\"A\"\x7d\x7d") =
        (false, Json.NewDecoder "\x7d\x7b\"Status\":11,\"Key\":\x7b\"/\":\"A\"\x7d\x7d") := by
      rfl
    unfold CleanFilestore
    simp only
    rw [hw0]
    unfold sweepLoop
    simp only [hm0]
    exact ⟨trivial, hcalls0⟩
  · have hm0 : (jsonStream render).More (Json.NewDecoder
        "\x7b\"Status\":11,\"Key\":\x7b\"/\":\"A\"\x7d\x7d") =
        (true, Json.NewDecoder "\x7b\"Status\":11,\"Key\":\x7b\"/\":\"A\"\x7d\x7d") := by
      rfl
    have hd0 : (jsonStream render).Decode (Json.NewDecoder
        "\x7b\"Status\":11,\"Key\":\x7b\"/\":\"A\"\x7d\x7d") =
        (.ok ⟨11, ⟨"A"⟩⟩, ⟨[], none⟩) := by
      rfl
    unfold CleanFilestore
    simp only
    rw [hw0]
    unfold sweepLoop
    simp only [hm0, hd0]
    rw [if_pos (show (11 : Int) = NoFile from rfl)]
    obtain ⟨cs, hcs⟩ := removeBlock_calls_prefix unmarshal node cfg inner "A"
      (w0.log ("Removing reference from filestore: " ++ "A"))
    split
    · obtain ⟨cs1, hcs1⟩ := sweepLoop_calls_prefix (jsonStream render) unmarshal node cfg inner
        (outer + 1) (⟨[], none⟩ : Json.Decoder)
        (removeBlock unmarshal node cfg inner "A"
          (w0.log ("Removing reference from filestore: " ++ "A"))).world
      simp only [World.requests] at *
      rw [hcs1, hcs]
      simp [hcalls0]
    · simp only [World.requests]
      rw [hcs]
      simp [hcalls0]

section Logs

variable {σ : Type}

theorem unpin_logs (unmarshal : String → Option ErrorStruct) (node : Node σ) (cfg : Config)
    (cid : String) (w : World σ) :
    ∃ ls, (unpin unmarshal node cfg cid w).logs = w.logs ++ ls ∧
      ∀ l ∈ ls, isRemovalFailureLine l = false := by
  unfold unpin
  simp only
  split
  · next err _ =>
    refine ⟨["Effected block is pinned, removing pin: " ++ cid,
      "Error removing pin: " ++ err.Error], ?_, ?_⟩
    · simp [doRequest_logs]
    · intro l hl
      simp only [List.mem_cons, List.mem_singleton, List.not_mem_nil, or_false] at hl
      rcases hl with rfl | rfl <;> rfl
  · refine ⟨["Effected block is pinned, removing pin: " ++ cid], ?_, ?_⟩
    · simp [doRequest_logs]
    · intro l hl
      simp only [List.mem_singleton] at hl
      subst hl
      rfl

theorem removeLoop_logs (unmarshal : String → Option ErrorStruct) (node : Node σ)
    (cfg : Config) (key : String) (fuel : Nat) :
    ∀ (err : Option GoError) (w : World σ),
      ∃ ls, (removeLoop unmarshal node cfg key fuel err w).world.logs = w.logs ++ ls ∧
        ∀ l ∈ ls, isRemovalFailureLine l = false := by
  induction fuel with
  | zero =>
    intro err w
    cases err with
    | none => exact ⟨[], by simp [removeLoop_none]⟩
    | some e =>
      cases h : HasPrefix e.Error "pinned" with
      | false => exact ⟨[], by simp [removeLoop_not_pinned _ _ _ _ _ _ _ h]⟩
      | true => exact ⟨[], by simp [removeLoop_zero _ _ _ _ _ _ h]⟩
  | succ n ih =>
    intro err w
    cases err with
    | none => exact ⟨[], by simp [removeLoop_none]⟩
    | some e =>
      cases h : HasPrefix e.Error "pinned" with
      | false => exact ⟨[], by simp [removeLoop_not_pinned _ _ _ _ _ _ _ h]⟩
      | true =>
        cases hp : pinIdentifier e.Error with
        | none => exact ⟨[], by simp [removeLoop_panic _ _ _ _ _ _ _ h hp]⟩
        | some cid =>
          rw [removeLoop_step _ _ _ _ _ _ _ cid h hp]
          obtain ⟨ls, h1, h2⟩ := ih
            (doRequest unmarshal node cfg cfg.TimeoutTime ("block/rm?arg=" ++ key)
              (unpin unmarshal node cfg cid w)).1.2
            (doRequest unmarshal node cfg cfg.TimeoutTime ("block/rm?arg=" ++ key)
              (unpin unmarshal node cfg cid w)).2
          obtain ⟨ls0, h3, h4⟩ := unpin_logs unmarshal node cfg cid w
          refine ⟨ls0 ++ ls, ?_, ?_⟩
          · rw [h1, doRequest_logs, h3, List.append_assoc]
          · intro l hl
            rcases List.mem_append.mp hl with hl | hl
            · exact h4 l hl
            · exact h2 l hl

theorem removeBlock_logs (unmarshal : String → Option ErrorStruct) (node : Node σ)
    (cfg : Config) (fuel : Nat) (key : String) (w : World σ) :
    ∃ ls, (removeBlock unmarshal node cfg fuel key w).world.logs = w.logs ++ ls ∧
      ∀ l ∈ ls, isRemovalFailureLine l = false := by
  unfold removeBlock
  simp only
  obtain ⟨ls, h1, h2⟩ := removeLoop_logs unmarshal node cfg key fuel
    (doRequest unmarshal node cfg cfg.TimeoutTime ("block/rm?arg=" ++ key) w).1.2
    (doRequest unmarshal node cfg cfg.TimeoutTime ("block/rm?arg=" ++ key) w).2
  exact ⟨ls, by rw [h1, doRequest_logs], h2⟩

/-- No line written by the loop of the sweep reports a failed removal. -/
theorem sweepLoop_logs {δ : Type} (dec : StreamDecoder δ)
    (unmarshal : String → Option ErrorStruct) (node : Node σ) (cfg : Config)
    (inner outer : Nat) :
    ∀ (d : δ) (w : World σ),
      ∃ ls, (sweepLoop dec unmarshal node cfg inner outer d w).world.logs = w.logs ++ ls ∧
        ∀ l ∈ ls, isRemovalFailureLine l = false := by
  induction outer with
  | zero =>
    intro d w
    exact ⟨[], by simp [sweepLoop]⟩
  | succ n ih =>
    intro d w
    unfold sweepLoop
    rcases hm : dec.More d with ⟨b, d1⟩
    cases b with
    | false => exact ⟨[], by simp⟩
    | true =>
      simp only
      rcases hd : dec.Decode d1 with ⟨res, d2⟩
      cases res with
      | error text =>
        simp only
        obtain ⟨ls, h1, h2⟩ := ih d2 (w.log ("Error decoding fsEntry stream: " ++ text))
        refine ⟨("Error decoding fsEntry stream: " ++ text) :: ls, by rw [h1]; simp, ?_⟩
        intro l hl
        rcases List.mem_cons.mp hl with rfl | hl
        · rfl
        · exact h2 l hl
      | ok e =>
        simp only
        by_cases hs : e.Status = NoFile
        · rw [if_pos hs]
          obtain ⟨ls0, h3, h4⟩ := removeBlock_logs unmarshal node cfg inner e.Key.Slash
            (w.log ("Removing reference from filestore: " ++ e.Key.Slash))
          have hline : isRemovalFailureLine
              ("Removing reference from filestore: " ++ e.Key.Slash) = false := rfl
          split
          · obtain ⟨ls, h1, h2⟩ := ih d2 (removeBlock unmarshal node cfg inner e.Key.Slash
              (w.log ("Removing reference from filestore: " ++ e.Key.Slash))).world
            refine ⟨("Removing reference from filestore: " ++ e.Key.Slash) :: (ls0 ++ ls),
              by rw [h1, h3]; simp, ?_⟩
            intro l hl
            rcases List.mem_cons.mp hl with rfl | hl
            · exact hline
            · rcases List.mem_append.mp hl with hl | hl
              · exact h4 l hl
              · exact h2 l hl
          · refine ⟨("Removing reference from filestore: " ++ e.Key.Slash) :: ls0,
              by simp only; rw [h3]; simp, ?_⟩
            intro l hl
            rcases List.mem_cons.mp hl with rfl | hl
            · exact hline
            · exact h4 l hl
        · rw [if_neg hs]
          exact ih d2 w

end Logs

/-! ## The report of a failed removal -/

/-- C6 does not hold of the code. (1) A record of status 11 with key `A`
whose `block/rm` call fails with the text `boom`, which does not begin with
`pinned`: the sweep ends normally and its only log line is the one that
announces the removal; the error `boom` is not logged. (2) In general, for
every decoder, node, configuration and bound, no line the loop of the sweep
adds to the log begins with `Error removing bad block:`. -/
theorem failed_removal_is_not_logged {σ δ : Type} (dec : StreamDecoder δ)
    (unmarshal : String → Option ErrorStruct) (node : Node σ) (cfg : Config)
    (inner outer : Nat) (d : δ) (w : World σ) :
    ((CleanFilestore recordStream Json.Unmarshal (reply (.body "\x7b\"Message\":\"boom\"\x7d"))
        defaultConfig 2 1 (.ok [⟨11, ⟨"A"⟩⟩]) (World.init ())).status = .finished ∧
      (CleanFilestore recordStream Json.Unmarshal (reply (.body "\x7b\"Message\":\"boom\"\x7d"))
        defaultConfig 2 1 (.ok [⟨11, ⟨"A"⟩⟩]) (World.init ())).world.calls =
        [⟨blockRm defaultConfig "A", "\x7b\"Message\":\"boom\"\x7d",
          some (.api ⟨"boom", "", 0, ""⟩)⟩] ∧
      (CleanFilestore recordStream Json.Unmarshal (reply (.body "\x7b\"Message\":\"boom\"\x7d"))
        defaultConfig 2 1 (.ok [⟨11, ⟨"A"⟩⟩]) (World.init ())).world.logs =
        ["Removing reference from filestore: A"]) ∧
    ∃ ls, (sweepLoop dec unmarshal node cfg inner outer d w).world.logs = w.logs ++ ls ∧
      ∀ l ∈ ls, isRemovalFailureLine l = false :=
  ⟨by decide, sweepLoop_logs dec unmarshal node cfg inner outer d w⟩

/-! ## An error text with fewer than three tokens -/

/-- C7 does not hold of the code. The stream delivers the records (11,A) and
(11,B), and the node refuses every removal with a text that begins with
`pinned` and has two tokens, `pinned: recursive`: indexing the split text at 2
is out of range, the sweep stops there after the single call `block/rm?arg=A`,
and the record B is never processed. The same happens with the one-token text
`pinned`. -/
theorem short_pinned_text_aborts_the_sweep :
    ((CleanFilestore recordStream Json.Unmarshal
        (reply (.body "\x7b\"Hash\":\"A\",\"Error\":\"pinned: recursive\"\x7d"))
        defaultConfig 3 1 (.ok [⟨11, ⟨"A"⟩⟩, ⟨11, ⟨"B"⟩⟩]) (World.init ())).status =
        .indexOutOfRange 2 2 ∧
      (CleanFilestore recordStream Json.Unmarshal
        (reply (.body "\x7b\"Hash\":\"A\",\"Error\":\"pinned: recursive\"\x7d"))
        defaultConfig 3 1 (.ok [⟨11, ⟨"A"⟩⟩, ⟨11, ⟨"B"⟩⟩]) (World.init ())).world.calls =
        [⟨blockRm defaultConfig "A", "\x7b\"Hash\":\"A\",\"Error\":\"pinned: recursive\"\x7d",
          some (.api ⟨"", "pinned: recursive", 0, ""⟩)⟩] ∧
      pinIdentifier "pinned: recursive" = none) ∧
    ((CleanFilestore recordStream Json.Unmarshal (reply (.body "\x7b\"Message\":\"pinned\"\x7d"))
        defaultConfig 3 1 (.ok [⟨11, ⟨"A"⟩⟩, ⟨11, ⟨"B"⟩⟩]) (World.init ())).status =
        .indexOutOfRange 2 1 ∧
      (CleanFilestore recordStream Json.Unmarshal (reply (.body "\x7b\"Message\":\"pinned\"\x7d"))
        defaultConfig 3 1 (.ok [⟨11, ⟨"A"⟩⟩, ⟨11, ⟨"B"⟩⟩]) (World.init ())).world.requests =
        [blockRm defaultConfig "A"]) := by
  decide

/-- C2 at the records (11,A), (0,B), (11,C): the sweep over them is the sweep
over (11,A), (11,C). -/
theorem nonsentinel_records_issue_no_call_witness :
    ([⟨11, ⟨"A"⟩⟩, ⟨0, ⟨"B"⟩⟩, ⟨11, ⟨"C"⟩⟩] : List FileStoreEntry).length < 4 ∧
    (sentinels [⟨11, ⟨"A"⟩⟩, ⟨0, ⟨"B"⟩⟩, ⟨11, ⟨"C"⟩⟩]).length < 3 ∧
    sentinels [⟨11, ⟨"A"⟩⟩, ⟨0, ⟨"B"⟩⟩, ⟨11, ⟨"C"⟩⟩] = [⟨11, ⟨"A"⟩⟩, ⟨11, ⟨"C"⟩⟩] ∧
    CleanFilestore recordStream Json.Unmarshal scripted defaultConfig 4 1
        (.ok [⟨11, ⟨"A"⟩⟩, ⟨0, ⟨"B"⟩⟩, ⟨11, ⟨"C"⟩⟩])
        (World.init [.body "\x7b\"Hash\":\"A\"\x7d", .body "\x7b\"Hash\":\"C\"\x7d"]) =
      CleanFilestore recordStream Json.Unmarshal scripted defaultConfig 3 1
        (.ok (sentinels [⟨11, ⟨"A"⟩⟩, ⟨0, ⟨"B"⟩⟩, ⟨11, ⟨"C"⟩⟩]))
        (World.init [.body "\x7b\"Hash\":\"A\"\x7d", .body "\x7b\"Hash\":\"C\"\x7d"]) :=
  ⟨by decide, by decide, by decide,
    (nonsentinel_records_issue_no_call Json.Unmarshal scripted defaultConfig 1 4 3
      [⟨11, ⟨"A"⟩⟩, ⟨0, ⟨"B"⟩⟩, ⟨11, ⟨"C"⟩⟩]
      (World.init [.body "\x7b\"Hash\":\"A\"\x7d", .body "\x7b\"Hash\":\"C\"\x7d"])
      (by decide) (by decide)).1⟩

/-- C4 at the error text `pinned by QmXYZ directly` and the key `A`, on a node
that refuses every call with that text. -/
theorem pin_unwind_step_witness :
    HasPrefix (GoError.api ⟨"pinned by QmXYZ directly", "", 0, ""⟩).Error "pinned" = true ∧
    pinIdentifier (GoError.api ⟨"pinned by QmXYZ directly", "", 0, ""⟩).Error = some "QmXYZ" ∧
    ∃ rest,
      (removeLoop Json.Unmarshal
        (reply (.body "\x7b\"Message\":\"pinned by QmXYZ directly\"\x7d")) defaultConfig "A" 1
        (some (.api ⟨"pinned by QmXYZ directly", "", 0, ""⟩)) (World.init ())).world.requests =
        (World.init ()).requests ++ [pinRm defaultConfig "QmXYZ", blockRm defaultConfig "A"] ++
          rest :=
  ⟨by decide, by decide,
    (pin_unwind_step Json.Unmarshal
      (reply (.body "\x7b\"Message\":\"pinned by QmXYZ directly\"\x7d")) defaultConfig 0 "A"
      "QmXYZ" (.api ⟨"pinned by QmXYZ directly", "", 0, ""⟩) (by decide) (by decide)).2.1
      (World.init ())⟩

/-- C10 on a node that refuses every call, `pin/rm` included, with the text
`pinned by QmXYZ directly`: with 3 rounds the sweep over (11,A), (11,B) stops
exhausted after 7 requests, none of them for B. -/
theorem unremovable_pin_loops_forever_witness :
    HasPrefix "pinned by QmXYZ directly" "pinned" = true ∧
    pinIdentifier "pinned by QmXYZ directly" = some "QmXYZ" ∧
    (CleanFilestore recordStream Json.Unmarshal
      (reply (.body "\x7b\"Message\":\"pinned by QmXYZ directly\"\x7d")) defaultConfig 1 3
      (.ok [⟨NoFile, ⟨"A"⟩⟩, ⟨11, ⟨"B"⟩⟩]) (World.init ())).status = .exhausted ∧
    (CleanFilestore recordStream Json.Unmarshal
      (reply (.body "\x7b\"Message\":\"pinned by QmXYZ directly\"\x7d")) defaultConfig 1 3
      (.ok [⟨NoFile, ⟨"A"⟩⟩, ⟨11, ⟨"B"⟩⟩]) (World.init ())).world.requests =
        blockRm defaultConfig "A" :: retries defaultConfig "A" "QmXYZ" 3 := by
  have hall : ∀ c ∈ (CleanFilestore recordStream Json.Unmarshal
      (reply (.body "\x7b\"Message\":\"pinned by QmXYZ directly\"\x7d")) defaultConfig 1 3
      (.ok [⟨NoFile, ⟨"A"⟩⟩, ⟨11, ⟨"B"⟩⟩]) (World.init ())).world.calls,
      c.err = some (.api ⟨"pinned by QmXYZ directly", "", 0, ""⟩) := by decide
  have h := unremovable_pin_loops_forever Json.Unmarshal
    (reply (.body "\x7b\"Message\":\"pinned by QmXYZ directly\"\x7d")) defaultConfig "A"
    "pinned by QmXYZ directly" "QmXYZ" [⟨11, ⟨"B"⟩⟩] () 0 3 (by decide) (by decide)
    (fun c hc _ => ⟨_, hall c hc, by decide⟩)
  exact ⟨by decide, by decide, h.1, h.2.1⟩

/-! ## The end-to-end scenario on bytes -/

set_option maxRecDepth 20000 in
/-- The verify response `{"Status":11,"Key":{"/":"A"}}`,
`{"Status":0,"Key":{"/":"B"}}`, `{"Status":11,"Key":{"/":"C"}}` (one object per
line, with the other fields a node sends), read through the model of
`json.Decoder`: the sweep finishes after the calls `block/rm?arg=A` and
`block/rm?arg=C`, as it does on the list of the three records. -/
theorem sweep_of_verify_bytes :
    (CleanFilestore (jsonStream fun _ => "") Json.Unmarshal scripted defaultConfig 5 1
      (.ok (Json.NewDecoder
        ("\x7b\"Status\":11,\"ErrorMsg\":\"\",\"Key\":\x7b\"/\":\"A\"\x7d,\"Size\":3\x7d\n" ++
          "\x7b\"Status\":0,\"ErrorMsg\":\"\",\"Key\":\x7b\"/\":\"B\"\x7d,\"Size\":3\x7d\n" ++
          "\x7b\"Status\":11,\"ErrorMsg\":\"\",\"Key\":\x7b\"/\":\"C\"\x7d,\"Size\":3\x7d\n")))
      (World.init [.body "\x7b\"Hash\":\"A\"\x7d", .body "\x7b\"Hash\":\"C\"\x7d"])).status =
      .finished ∧
    (CleanFilestore (jsonStream fun _ => "") Json.Unmarshal scripted defaultConfig 5 1
      (.ok (Json.NewDecoder
        ("\x7b\"Status\":11,\"ErrorMsg\":\"\",\"Key\":\x7b\"/\":\"A\"\x7d,\"Size\":3\x7d\n" ++
          "\x7b\"Status\":0,\"ErrorMsg\":\"\",\"Key\":\x7b\"/\":\"B\"\x7d,\"Size\":3\x7d\n" ++
          "\x7b\"Status\":11,\"ErrorMsg\":\"\",\"Key\":\x7b\"/\":\"C\"\x7d,\"Size\":3\x7d\n")))
      (World.init [.body "\x7b\"Hash\":\"A\"\x7d", .body "\x7b\"Hash\":\"C\"\x7d"])).world.requests =
      (CleanFilestore recordStream Json.Unmarshal scripted defaultConfig 5 1
        (.ok [⟨11, ⟨"A"⟩⟩, ⟨0, ⟨"B"⟩⟩, ⟨11, ⟨"C"⟩⟩])
        (World.init [.body "\x7b\"Hash\":\"A\"\x7d", .body "\x7b\"Hash\":\"C\"\x7d"])).world.requests ∧
    (CleanFilestore recordStream Json.Unmarshal scripted defaultConfig 5 1
        (.ok [⟨11, ⟨"A"⟩⟩, ⟨0, ⟨"B"⟩⟩, ⟨11, ⟨"C"⟩⟩])
        (World.init [.body "\x7b\"Hash\":\"A\"\x7d", .body "\x7b\"Hash\":\"C\"\x7d"])).world.requests =
      [blockRm defaultConfig "A", blockRm defaultConfig "C"] ∧
    (CleanFilestore (jsonStream fun _ => "") Json.Unmarshal scripted defaultConfig 5 1
      (.ok (Json.NewDecoder
        ("[1]" ++ "\x7b\"Status\":11,\"Key\":\x7b\"/\":\"A\"\x7d\x7d")))
      (World.init [.body "\x7b\"Hash\":\"A\"\x7d"])).world.requests =
      [blockRm defaultConfig "A"] := by
  decide

end FilestoreCleanup
